import Mathlib

/-!
Verification of the asset refresh/synchronization subsystem of
`src/renderer/editor/components/assets.tsx` (class `Assets`).

The embedding models the class as a state machine.  JavaScript is single
threaded, so re-entrant calls can only be observed at `await` points; the
machine therefore executes every synchronous segment of the source
atomically and suspends exactly where the source awaits a handler's
`refresh` call.  External stimuli (calls to `refresh`/`forceRefresh`/
`_refreshAllAssets`, resolution of an awaited handler refresh, calls to
`addFilesToAssets`) are events; observable behaviour (progress-task calls,
observer subscription changes, handler refresh invocations, alerts) is
collected in a trace of effects.
-/

namespace Assets

/-- JavaScript IEEE-number values restricted to the exact arithmetic the
embedded code performs: exact rationals plus the special values produced by
division by zero (`100 / 0 = Infinity`, `length / 0 * 100 = Infinity`).  A
finite value is an unnormalized fraction `num / den`; every finite value
the embedded code builds has a positive denominator, and all tests and
comparisons below read the fraction's value, never its representation. -/
inductive JSNum where
  | nan : JSNum
  | inf : JSNum
  | ninf : JSNum
  | fin : ℤ → ℕ → JSNum
deriving DecidableEq

/-- JavaScript division. Division of a nonzero finite number by zero yields
a signed infinity; `0 / 0` is `NaN`. -/
def jsDiv : JSNum → JSNum → JSNum
  | .fin n1 d1, .fin n2 d2 =>
      if n2 = 0 then (if n1 = 0 then .nan else if 0 < n1 then .inf else .ninf)
      else .fin (n1 * d2 * n2.sign) (d1 * n2.natAbs)
  | .inf, .fin n2 _ => if 0 ≤ n2 then .inf else .ninf
  | .ninf, .fin n2 _ => if 0 ≤ n2 then .ninf else .inf
  | .fin _ _, .inf => .fin 0 1
  | .fin _ _, .ninf => .fin 0 1
  | _, _ => .nan

/-- JavaScript multiplication (`Infinity * 100 = Infinity`,
`Infinity * 0 = NaN`). -/
def jsMul : JSNum → JSNum → JSNum
  | .fin n1 d1, .fin n2 d2 => .fin (n1 * n2) (d1 * d2)
  | .inf, .fin n _ => if n = 0 then .nan else if 0 < n then .inf else .ninf
  | .fin n _, .inf => if n = 0 then .nan else if 0 < n then .inf else .ninf
  | .ninf, .fin n _ => if n = 0 then .nan else if 0 < n then .ninf else .inf
  | .fin n _, .ninf => if n = 0 then .nan else if 0 < n then .ninf else .inf
  | .inf, .inf => .inf
  | .ninf, .ninf => .inf
  | .inf, .ninf => .ninf
  | .ninf, .inf => .ninf
  | _, _ => .nan

/-- JavaScript addition on the values that arise here. -/
def jsAdd : JSNum → JSNum → JSNum
  | .fin n1 d1, .fin n2 d2 => .fin (n1 * d2 + n2 * d1) (d1 * d2)
  | .inf, .fin _ _ => .inf
  | .fin _ _, .inf => .inf
  | .inf, .inf => .inf
  | .ninf, .fin _ _ => .ninf
  | .fin _ _, .ninf => .ninf
  | .ninf, .ninf => .ninf
  | _, _ => .nan

/-- JavaScript strict `<` comparison (`NaN` compares false with everything;
finite fractions are compared by value, cross-multiplying with the positive
denominators). -/
def jsLt : JSNum → JSNum → Bool
  | .fin n1 d1, .fin n2 d2 => decide (n1 * d2 < n2 * d1)
  | .fin _ _, .inf => true
  | .ninf, .fin _ _ => true
  | .ninf, .inf => true
  | _, _ => false

/-- Fields of `IAssetComponentItem` that the embedded code reads or writes.
`id`, `key`, `base64` and `style` are the four fields persisted by
`GetCachedData`; `extra` stands for any remaining UI-only state of an item.
A freshly cached copy of an item carries `none` in the fields the copy does
not set. -/
structure AssetItem where
  id : String
  key : String
  base64 : Option String
  style : Option String
  extra : Option String
deriving DecidableEq

/-- State of a live `AbstractAssets` instance (`_ref`) as the coordinator
sees it. `items` is optional because plain JavaScript lets `SetCachedData`
assign `undefined` to it; a freshly mounted handler always holds `some []`.
`refreshOk` is the environment's choice of whether this handler's `refresh`
call resolves or rejects. `hasOnDropFiles` records whether the optional
`onDropFiles` hook is defined. `observers` and `nextObs` model the
subscription list of `updateAssetObservable`. -/
structure HandlerRef where
  items : Option (List AssetItem)
  observers : List ℕ
  nextObs : ℕ
  refreshOk : Bool
  hasOnDropFiles : Bool
deriving DecidableEq

/-- A registered descriptor (`IAssetComponent`): title, identifier,
constructor reference (modelled as a numeric identity, compared by
reference equality), the generated `_id`, and the optional live instance
`_ref`. -/
structure AssetComponent where
  title : String
  identifier : String
  ctor : ℕ
  uid : ℕ
  ref : Option HandlerRef
deriving DecidableEq

/-- Observable effects of the subsystem, in emission order. `passStarted`
marks the guard of `_refreshAllAssets` being passed (a refresh pass begins
executing with the given filter / object-scope / force arguments). -/
inductive Effect where
  | passStarted (filter : Option ℕ) (obj : Bool) (force : Bool)
  | taskOpened
  | taskUpdated (value : JSNum)
  | taskClosed
  | itemsCleared (idx : ℕ)
  | observerAdded (idx : ℕ) (obs : ℕ)
  | observerRemoved (idx : ℕ) (obs : ℕ)
  | refreshInvoked (idx : ℕ) (items : List AssetItem)
  | refreshRejected (idx : ℕ)
  | typeErrorThrown
  | returnedBusy
  | alertShown
  | onDropInvoked (idx : ℕ)
deriving DecidableEq

/-- Constants of one refresh pass: the `componentCtor` filter, whether an
`object` argument was supplied, the `force` flag, and the captured
`step = 100 / Assets._assetComponents.length` (source line 310). -/
structure PassCtx where
  filter : Option ℕ
  obj : Bool
  force : Bool
  stp : JSNum
deriving DecidableEq

/-- A refresh pass suspended at `await component._ref.refresh(object)`
(source line 323): the component index being awaited, the observer id added
at line 320, the `assetStep` computed at line 317, and the registry indices
still to visit. -/
structure SuspendInfo where
  idx : ℕ
  obs : ℕ
  assetStep : JSNum
  rest : List ℕ
deriving DecidableEq

/-- An in-flight refresh pass: its constants, the accumulated `progress`
local, and its suspension point. -/
structure Pass where
  ctx : PassCtx
  progress : JSNum
  susp : SuspendInfo
deriving DecidableEq

/-- State of the `Assets` component: the static registry
`Assets._assetComponents`, the `_isRefreshing` and `_needsRefresh` flags,
and the list of refresh passes currently executing (kept as a list so that
the at-most-one-pass property is a theorem rather than a modelling
assumption). -/
structure MachineState where
  components : List AssetComponent
  isRefreshing : Bool
  needsRefresh : Bool
  executing : List Pass
deriving DecidableEq

/-- Outcome of running the refresh loop from a list of registry indices. -/
inductive PassOut where
  | suspended (si : SuspendInfo)
  | finished
  | threw
deriving DecidableEq

/-- Filter test of source line 314:
`componentCtor && componentCtor !== component.ctor`. -/
def filterSkipsAt (f : Option ℕ) (ct : ℕ) : Bool :=
  match f with
  | some c => c != ct
  | none => false

/-- Filter test of a pass applied to a descriptor. -/
def ctxFilterSkips (ctx : PassCtx) (comp : AssetComponent) : Bool :=
  filterSkipsAt ctx.filter comp.ctor

/-- Body of the `for` loop of `_refreshAllAssets` (source lines 313-327) up
to the `await` of the current handler's `refresh` call.  Indices are
consumed in registration order; an index is skipped when the filter does
not match (line 314) or the descriptor has no live `_ref` (line 315).
Reaching a live handler computes `assetStep` from the current item count
(line 317), clears the item list when `force` (line 318), adds the progress
observer (line 320) and invokes `refresh`, suspending there (line 323).  A
handler whose `items` is `undefined` makes line 317 throw a `TypeError`. -/
def loopFrom (ctx : PassCtx) : List AssetComponent → List ℕ →
    List AssetComponent × List Effect × PassOut
  | comps, [] => (comps, [], .finished)
  | comps, idx :: rest =>
    match comps.get? idx with
    | none => loopFrom ctx comps rest
    | some comp =>
      if ctxFilterSkips ctx comp then loopFrom ctx comps rest
      else
        match comp.ref with
        | none => loopFrom ctx comps rest
        | some r =>
          match r.items with
          | none => (comps, [], .threw)
          | some its =>
            let assetStep := jsDiv ctx.stp (.fin its.length 1)
            let r1 := if ctx.force then { r with items := some [] } else r
            let obs := r1.nextObs
            let r2 := { r1 with observers := r1.observers ++ [obs], nextObs := obs + 1 }
            (comps.set idx { comp with ref := some r2 },
             (if ctx.force then [Effect.itemsCleared idx] else []) ++
               [Effect.observerAdded idx obs,
                Effect.refreshInvoked idx (if ctx.force then [] else its)],
             .suspended ⟨idx, obs, assetStep, rest⟩)

/-- Tag describing how a call to `_refreshAllAssets` returned control. -/
inductive CallOut where
  | busy
  | inFlight
  | completed
  | threwOut
deriving DecidableEq

/-- Synchronous part of `_refreshAllAssets` (source lines 301-331), without
the pending-rerun tail: the `_isRefreshing` guard (lines 302-305, which
only sets `_needsRefresh` and returns), task creation (line 307, suppressed
for object-scoped refreshes), setting `_isRefreshing` (line 308), and the
loop until its first suspension — or, when no live handler matches, to the
epilogue that closes the task and clears `_isRefreshing` (lines 329-330).
An uncaught loop exception leaves `_isRefreshing` set. -/
def refreshAllBase (s : MachineState) (f : Option ℕ) (o frc : Bool) :
    MachineState × List Effect × CallOut :=
  if s.isRefreshing then
    ({ s with needsRefresh := true }, [Effect.returnedBusy], .busy)
  else
    let ctx : PassCtx := ⟨f, o, frc, jsDiv (.fin 100 1) (.fin s.components.length 1)⟩
    let startEffs := [Effect.passStarted f o frc] ++ (if o then [] else [Effect.taskOpened])
    let s1 := { s with isRefreshing := true }
    match loopFrom ctx s1.components (List.range s1.components.length) with
    | (comps2, effs, .suspended si) =>
        ({ s1 with components := comps2,
                   executing := ⟨ctx, .fin 0 1, si⟩ :: s1.executing },
         startEffs ++ effs, .inFlight)
    | (comps2, effs, .finished) =>
        ({ s1 with components := comps2, isRefreshing := false },
         startEffs ++ effs ++ (if o then [] else [Effect.taskClosed]), .completed)
    | (comps2, effs, .threw) =>
        ({ s1 with components := comps2 },
         startEffs ++ effs ++ [Effect.typeErrorThrown], .threwOut)

/-- The full `_refreshAllAssets` call.  When the synchronous part already
completes the whole pass (possible only when no live handler matches, so
that the loop never suspends), the pending-rerun tail (source lines
333-336) runs immediately.  A rerun entered this way starts with
`_needsRefresh = false` and nothing can set the flag during a synchronous
segment, so a second rerun is impossible and one unrolling of the tail call
is the complete semantics. -/
def refreshAllAssets (s : MachineState) (f : Option ℕ) (o frc : Bool) :
    MachineState × List Effect :=
  match refreshAllBase s f o frc with
  | (s1, e1, .completed) =>
      if s1.needsRefresh then
        let r2 := refreshAllBase { s1 with needsRefresh := false } none false false
        (r2.1, e1 ++ r2.2.1)
      else (s1, e1)
  | (s1, e1, _) => (s1, e1)

/-- Public `refresh` (source lines 171-173): forwards to `_refreshAllAssets`
with no `force` argument. -/
def refresh (s : MachineState) (component : Option ℕ) (object : Bool) :
    MachineState × List Effect :=
  refreshAllAssets s component object false

/-- Public `forceRefresh` (source lines 179-181): forwards to
`_refreshAllAssets component undefined true`. -/
def forceRefresh (s : MachineState) (component : Option ℕ) :
    MachineState × List Effect :=
  refreshAllAssets s component false true

/-- Line 326 guard of the resume path:
`!object && assetStep === Infinity`. -/
def advBump (p : Pass) : Bool :=
  !p.ctx.obj && p.susp.assetStep == JSNum.inf

/-- Value of the `progress` local after the resume path of one handler. -/
def advProgress (p : Pass) : JSNum :=
  if advBump p then jsAdd p.progress p.ctx.stp else p.progress

/-- Effects of the resume path of a successful handler refresh, before the
loop continues: the observer removal of line 324 and the conditional
progress update of line 326. -/
def advEffs (p : Pass) : List Effect :=
  [Effect.observerRemoved p.susp.idx p.susp.obs] ++
    (if advBump p then [Effect.taskUpdated (advProgress p)] else [])

/-- Resolution of the awaited `refresh` call of the currently suspended
pass.  On success the observer added at line 320 is removed (line 324), the
aggregate progress is bumped when `assetStep === Infinity` (line 326), and
the loop continues; when it finishes, the epilogue closes the task, clears
`_isRefreshing` (lines 329-330) and honours a pending rerun (lines
333-336).  On rejection the whole `async` body aborts: the observer is not
removed, the epilogue is skipped, and `_isRefreshing` stays set. -/
def stepAdvance (s : MachineState) : MachineState × List Effect :=
  match s.executing with
  | [] => (s, [])
  | p :: restPasses =>
    match s.components.get? p.susp.idx with
    | none => ({ s with executing := restPasses }, [])
    | some comp =>
      match comp.ref with
      | none => ({ s with executing := restPasses }, [])
      | some r =>
        if r.refreshOk then
          let r1 := { r with observers := r.observers.erase p.susp.obs }
          let comps1 := s.components.set p.susp.idx { comp with ref := some r1 }
          let progress1 := advProgress p
          let effs0 := advEffs p
          match loopFrom p.ctx comps1 p.susp.rest with
          | (comps2, effs1, .suspended si) =>
              ({ s with components := comps2,
                        executing := { p with progress := progress1, susp := si } :: restPasses },
               effs0 ++ effs1)
          | (comps2, effs1, .finished) =>
              let effs2 := effs0 ++ effs1 ++ (if p.ctx.obj then [] else [Effect.taskClosed])
              let s1 := { s with components := comps2, isRefreshing := false,
                                 executing := restPasses }
              if s1.needsRefresh then
                let r2 := refreshAllAssets { s1 with needsRefresh := false } none false false
                (r2.1, effs2 ++ r2.2)
              else (s1, effs2)
          | (comps2, effs1, .threw) =>
              ({ s with components := comps2, executing := restPasses },
               effs0 ++ effs1 ++ [Effect.typeErrorThrown])
        else
          ({ s with executing := restPasses }, [Effect.refreshRejected p.susp.idx])

/-- Loop of `addFilesToAssets` (source lines 282-289) over the live handler
instances: for each, the optional `onDropFiles` hook is invoked, and the
progress task is updated with `length / i * 100` regardless (division by
zero at `i = 0`). -/
def dropFilesLoop (comps : List HandlerRef) (n i : ℕ) : List Effect :=
  match comps with
  | [] => []
  | c :: rest =>
      (if c.hasOnDropFiles then [Effect.onDropInvoked i] else []) ++
      [Effect.taskUpdated (jsMul (jsDiv (.fin n 1) (.fin i 1)) (.fin 100 1))] ++
      dropFilesLoop rest n (i + 1)

/-- `addFilesToAssets` (source lines 273-296).  When `_isRefreshing` is set
the call returns at once with an alert (lines 274-276): no task is opened,
no hook runs, no refresh is triggered and the files are dropped.  Otherwise
the live handlers are collected, each hook is invoked sequentially with a
progress update after it, the task is closed and a full unfiltered
`_refreshAllAssets()` is triggered.  What each handler's hook does with the
files, and the trailing inspector re-render awaited after the refresh, are
external behaviour and not modelled. -/
def addFilesToAssets (s : MachineState) : MachineState × List Effect :=
  if s.isRefreshing then (s, [Effect.alertShown])
  else
    let components := s.components.filterMap (·.ref)
    let effs := [Effect.taskOpened] ++ dropFilesLoop components components.length 0 ++
      [Effect.taskClosed]
    let r1 := refreshAllAssets s none false false
    (r1.1, effs ++ r1.2)

/-- External stimuli of the machine: a refresh request (from `refresh`,
`forceRefresh` or `_refreshAllAssets` directly), the resolution of the
currently awaited handler refresh, or an `addFilesToAssets` request. -/
inductive Event where
  | call (f : Option ℕ) (o : Bool) (frc : Bool)
  | advance
  | ingest
deriving DecidableEq

/-- One event step of the machine. -/
def stepEvent (s : MachineState) : Event → MachineState × List Effect
  | .call f o frc => refreshAllAssets s f o frc
  | .advance => stepAdvance s
  | .ingest => addFilesToAssets s

/-- Run of a sequence of events, concatenating the emitted effects. -/
def runEvents (s : MachineState) : List Event → MachineState × List Effect
  | [] => (s, [])
  | e :: rest =>
    let r1 := stepEvent s e
    let r2 := runEvents r1.1 rest
    (r2.1, r1.2 ++ r2.2)

/-- JavaScript runtime errors surfaced by the embedded code. -/
inductive JSError where
  | typeError
deriving DecidableEq

/-- `getAssetsOf` (source lines 235-240): first descriptor whose `ctor` is
reference-equal to the argument; returns `_ref?.items`, which is
`undefined` both when no descriptor matches and when the match has no live
instance (indistinguishable in JavaScript, hence one `Option`). -/
def getAssetsOf (comps : List AssetComponent) (componentCtor : ℕ) :
    Option (List AssetItem) :=
  match comps.find? (fun a => a.ctor == componentCtor) with
  | some assetComponent => assetComponent.ref.bind (·.items)
  | none => none

/-- `getAssetsOfComponentId` (source lines 246-251): looks the descriptor
up by `identifier`; an unknown id yields `[]`.  A known id forwards to
`getAssetsOf` and dereferences the result with a non-null assertion
(`this.getAssetsOf(component.ctor)!.map(...)`), so a registered descriptor
with no live instance makes the `.map` call throw a `TypeError`.  The
projection keeps only `id`, `base64` and `key`. -/
def getAssetsOfComponentId (comps : List AssetComponent) (id : String) :
    Except JSError (List AssetItem) :=
  match comps.find? (fun a => a.identifier == id) with
  | none => .ok []
  | some component =>
    match getAssetsOf comps component.ctor with
    | none => .error .typeError
    | some cs => .ok (cs.map (fun c =>
        { id := c.id, key := c.key, base64 := c.base64, style := none, extra := none }))

/-- Assignment `result[title] = v` on a JavaScript object, modelled as an
insertion-ordered association list: an existing key is overwritten in
place, a new key is appended. -/
def dictInsert (d : List (String × Option (List AssetItem))) (k : String)
    (v : Option (List AssetItem)) : List (String × Option (List AssetItem)) :=
  if d.any (fun kv => kv.1 == k) then
    d.map (fun kv => if kv.1 == k then (k, v) else kv)
  else d ++ [(k, v)]

/-- Projection performed by `GetCachedData` on each item (source lines
81-84): the cached copy carries only `id`, `key`, `base64` and `style`. -/
def project4 (i : AssetItem) : AssetItem :=
  { id := i.id, key := i.key, base64 := i.base64, style := i.style, extra := none }

/-- Per-descriptor body of the `GetCachedData` fold (source lines 80-85):
`result[ac.title] = ac._ref?.items.map(project4)` — the key is written even
for a dead descriptor (value `undefined`), and a later descriptor with the
same title overwrites an earlier one.  A live handler whose `items` is
`undefined` makes the `.map` call throw. -/
def cacheStep (result : List (String × Option (List AssetItem)))
    (ac : AssetComponent) : Except JSError (List (String × Option (List AssetItem))) :=
  match ac.ref with
  | none => .ok (dictInsert result ac.title none)
  | some r =>
    match r.items with
    | none => .error .typeError
    | some its => .ok (dictInsert result ac.title (some (its.map project4)))

/-- `GetCachedData` (source lines 78-88): fold of `cacheStep` over the
registry in registration order, starting from the empty object. -/
def GetCachedData (comps : List AssetComponent) :
    Except JSError (List (String × Option (List AssetItem))) :=
  comps.foldlM cacheStep []

/-- Per-key body of the `SetCachedData` loop (source lines 95-100): the
first descriptor with the key's title receives the saved list wholesale
(`ac._ref.items = data[a]`); a key whose first matching descriptor is
missing or dead is silently skipped. -/
def restoreStep (cs : List AssetComponent)
    (kv : String × Option (List AssetItem)) : List AssetComponent :=
  match cs.findIdx? (fun ac => ac.title == kv.1) with
  | none => cs
  | some j =>
    match cs.get? j with
    | none => cs
    | some ac =>
      match ac.ref with
      | none => cs
      | some r => cs.set j { ac with ref := some { r with items := kv.2 } }

/-- `SetCachedData` (source lines 94-101): fold of `restoreStep` over the
keys of the saved data in insertion order. -/
def SetCachedData (comps : List AssetComponent)
    (data : List (String × Option (List AssetItem))) : List AssetComponent :=
  data.foldl restoreStep comps

/-!
Projections of the effect trace and state predicates used by the theorems.
-/

/-- Index of a handler refresh invocation, when the effect is one. -/
def invokedIdx : Effect → Option ℕ
  | .refreshInvoked i _ => some i
  | _ => none

/-- Projection of the trace to refresh-call boundaries: `(true, i)` marks
the invocation of handler `i`'s refresh, `(false, i)` marks its completion
(the observer removal that immediately follows the resolved await). -/
def seqTag : Effect → Option (Bool × ℕ)
  | .refreshInvoked i _ => some (true, i)
  | .observerRemoved i _ => some (false, i)
  | _ => none

/-- Projection of the trace to the refresh passes that began executing,
with their filter / object-scope / force arguments. -/
def startTag : Effect → Option (Option ℕ × Bool × Bool)
  | .passStarted f o frc => some (f, o, frc)
  | _ => none

/-- Values reported to the progress-feedback task, in order. -/
def taskValues (l : List Effect) : List JSNum :=
  l.filterMap (fun e => match e with | .taskUpdated v => some v | _ => none)

/-- A descriptor is good when its live instance (if any) has a defined item
list and a refresh that resolves. -/
def goodComp (c : AssetComponent) : Bool :=
  match c.ref with
  | none => true
  | some r => r.refreshOk && r.items.isSome

/-- All registered descriptors are good. -/
def GoodComps (comps : List AssetComponent) : Prop :=
  ∀ c ∈ comps, goodComp c = true

/-- Skeleton of the registry: constructor identity and liveness of each
descriptor — the only registry data the visiting order of a refresh pass
depends on, and invariant during a pass. -/
def skel (comps : List AssetComponent) : List (ℕ × Bool) :=
  comps.map (fun c => (c.ctor, c.ref.isSome))

/-- Indices a refresh pass with filter `f` visits, out of the candidate
index list, over a registry skeleton. -/
def visitList (f : Option ℕ) (sk : List (ℕ × Bool)) : List ℕ → List ℕ
  | [] => []
  | idx :: rest =>
    match sk.get? idx with
    | none => visitList f sk rest
    | some cb =>
      if filterSkipsAt f cb.1 then visitList f sk rest
      else if cb.2 then idx :: visitList f sk rest
      else visitList f sk rest

/-- Expected begin/end tag pattern of a strictly sequential pass: each
visited handler's refresh begins and completes before the next begins. -/
def pairTags (l : List ℕ) : List (Bool × ℕ) :=
  l.flatMap (fun i => [(true, i), (false, i)])

/-- Machine states reachable from rest: a cleared guard means no pass is
executing, and never more than one pass executes. -/
def StateInv (s : MachineState) : Prop :=
  (s.isRefreshing = false → s.executing = []) ∧ s.executing.length ≤ 1

/-- States left behind by a rejected handler refresh: the guard is set but
no pass is executing any more, and nothing ever clears the guard again. -/
def Stuck (s : MachineState) : Prop :=
  s.isRefreshing = true ∧ s.executing = []

/-!
Concrete fixtures used by witnesses and counterexamples.
-/

/-- A live handler whose refresh resolves. -/
def refGood : HandlerRef := ⟨some [], [], 0, true, false⟩

/-- A live handler whose refresh rejects. -/
def refBad : HandlerRef := ⟨some [], [], 0, false, false⟩

/-- A live handler with an `onDropFiles` hook. -/
def refDrop : HandlerRef := ⟨some [], [], 0, true, true⟩

/-- An item with UI-only state beyond the four persisted fields. -/
def itemA : AssetItem := ⟨"a", "ka", none, none, some "ui"⟩

/-- A second, distinct item. -/
def itemB : AssetItem := ⟨"b", "kb", none, none, none⟩

/-- Registry with a rejecting first handler and a healthy second one. -/
def compsAB : List AssetComponent :=
  [⟨"A", "a", 0, 0, some refBad⟩, ⟨"B", "b", 1, 1, some refGood⟩]

/-- Idle machine over `compsAB`. -/
def sAB : MachineState := ⟨compsAB, false, false, []⟩

/-- Registry with two healthy live handlers. -/
def compsGood : List AssetComponent :=
  [⟨"A", "a", 0, 0, some refDrop⟩, ⟨"B", "b", 1, 1, some refGood⟩]

/-- Idle machine over `compsGood`. -/
def sGood : MachineState := ⟨compsGood, false, false, []⟩

/-- Registry with a single rejecting handler. -/
def sLeak : MachineState := ⟨[⟨"A", "a", 0, 0, some refBad⟩], false, false, []⟩

/-- Registry with a single registered but unmounted (dead) descriptor. -/
def sDead : MachineState := ⟨[⟨"A", "a", 0, 0, none⟩], false, false, []⟩

/-- Registry with two live descriptors sharing one title. -/
def compsDup : List AssetComponent :=
  [⟨"T", "id1", 0, 0, some ⟨some [itemA], [], 0, true, false⟩⟩,
   ⟨"T", "id2", 1, 1, some ⟨some [itemB], [], 0, true, false⟩⟩]

/-!
Claim C7 — busy file ingestion.
-/

/-- Claim C7: an `addFilesToAssets` call arriving while `_isRefreshing` is
set returns at once with the busy alert; the state is unchanged (the files
are dropped, not queued), no handler's `onDropFiles` hook runs, no progress
task is opened and no refresh pass is triggered. -/
theorem ingest_busy_rejected (s : MachineState) (h : s.isRefreshing = true) :
    addFilesToAssets s = (s, [Effect.alertShown]) ∧
    (∀ e ∈ (addFilesToAssets s).2, e ≠ Effect.taskOpened ∧
      (∀ i, e ≠ Effect.onDropInvoked i) ∧
      (∀ f o frc, e ≠ Effect.passStarted f o frc)) := by
  constructor
  · simp [addFilesToAssets, h]
  · simp [addFilesToAssets, h]

/-- Witness for C7 at a concrete busy state. -/
theorem ingest_busy_rejected_witness :
    addFilesToAssets ⟨compsGood, true, false, []⟩ =
      (⟨compsGood, true, false, []⟩, [Effect.alertShown]) :=
  (ingest_busy_rejected ⟨compsGood, true, false, []⟩ rfl).1

/-!
Claim C3 — lookup misses.
-/

/-- Claim C3 counterexample: a descriptor with identifier `"foo"` is
registered but has no live instance; `getAssetsOfComponentId` then throws a
`TypeError` (the non-null assertion of source line 250 dereferences
`undefined`) instead of returning a list. -/
theorem lookup_dead_component_throws_cex :
    getAssetsOfComponentId [⟨"T", "foo", 0, 0, none⟩] "foo" =
      Except.error JSError.typeError := rfl

/-- Claim C3 (amended): `getAssetsOfComponentId` returns the empty list,
without throwing, for every identifier with no registered descriptor, and
returns the projected item list when the found component's constructor
resolves to a live instance with its items; but when the constructor
lookup yields `undefined` (registered descriptor, no live instance), the
call throws a `TypeError`. -/
theorem lookup_by_identifier_spec (comps : List AssetComponent) (id : String) :
    (comps.find? (fun a => a.identifier == id) = none →
      getAssetsOfComponentId comps id = .ok []) ∧
    (∀ component its, comps.find? (fun a => a.identifier == id) = some component →
      getAssetsOf comps component.ctor = some its →
      getAssetsOfComponentId comps id = .ok (its.map (fun c =>
        { id := c.id, key := c.key, base64 := c.base64, style := none, extra := none }))) ∧
    (∀ component, comps.find? (fun a => a.identifier == id) = some component →
      getAssetsOf comps component.ctor = none →
      getAssetsOfComponentId comps id = .error .typeError) := by
  refine ⟨fun h => ?_, fun component its h1 h2 => ?_, fun component h1 h2 => ?_⟩
  · simp [getAssetsOfComponentId, h]
  · simp [getAssetsOfComponentId, h1, h2]
  · simp [getAssetsOfComponentId, h1, h2]

/-- Witness for C3 on a concrete registry: an unknown identifier resolves
to the empty list without an exception. -/
theorem lookup_by_identifier_spec_witness :
    getAssetsOfComponentId compsGood "zzz" = .ok [] :=
  (lookup_by_identifier_spec compsGood "zzz").1 (by decide)

/-!
Claim C2 — no per-handler error isolation in the refresh loop.
-/

/-- Claim C2 counterexample: with two live handlers where the first one's
refresh rejects, the pass invokes handler 0, the rejection is not caught at
any per-handler boundary, and handler 1 is never refreshed — even after
further resume events the invoked list stays `[0]`, the pass is gone and
the guard is still set. -/
theorem handler_failure_stops_pass_cex :
    (runEvents sAB [.call none false false, .advance, .advance, .advance]).2.filterMap invokedIdx
        = [0] ∧
    (runEvents sAB [.call none false false, .advance, .advance, .advance]).1.isRefreshing
        = true ∧
    (runEvents sAB [.call none false false, .advance, .advance, .advance]).1.executing
        = [] := by
  decide

/-- Helper: unfolding of the resume step when the awaited handler refresh
rejects — the `async` body aborts, dropping the pass and touching nothing
else. -/
theorem stepAdvance_reject (s : MachineState) (p : Pass) (rest : List Pass)
    (comp : AssetComponent) (r : HandlerRef)
    (hex : s.executing = p :: rest)
    (hc : s.components.get? p.susp.idx = some comp)
    (hr : comp.ref = some r) (hbad : r.refreshOk = false) :
    stepAdvance s = ({ s with executing := rest }, [Effect.refreshRejected p.susp.idx]) := by
  unfold stepAdvance
  rw [hex]
  simp only [hc, hr, hbad]
  simp

/-- Claim C2 (amended): a handler refresh rejection is not caught — the
whole pass aborts at that handler: the resume step emits only the rejection,
drops the pass, refreshes no subsequent handler in that pass, and leaves
every other field of the state (including the `_isRefreshing` guard)
untouched. -/
theorem handler_failure_aborts_pass (s : MachineState) (p : Pass) (rest : List Pass)
    (comp : AssetComponent) (r : HandlerRef)
    (hex : s.executing = p :: rest)
    (hc : s.components.get? p.susp.idx = some comp)
    (hr : comp.ref = some r) (hbad : r.refreshOk = false) :
    stepAdvance s = ({ s with executing := rest }, [Effect.refreshRejected p.susp.idx]) :=
  stepAdvance_reject s p rest comp r hex hc hr hbad

/-- Witness for C2's amended theorem at the state reached by starting a
pass over `compsAB`. -/
theorem handler_failure_aborts_pass_witness :
    stepAdvance (runEvents sAB [.call none false false]).1 =
      ({ (runEvents sAB [.call none false false]).1 with executing := [] },
        [Effect.refreshRejected 0]) :=
  handler_failure_aborts_pass (runEvents sAB [.call none false false]).1
    ⟨⟨none, false, false, .fin 100 2⟩, .fin 0 1, ⟨0, 0, .inf, [1]⟩⟩ []
    ⟨"A", "a", 0, 0, some ⟨some [], [0], 1, false, false⟩⟩
    ⟨some [], [0], 1, false, false⟩ (by decide) (by decide) rfl rfl

/-!
Claim C8 — observer subscription lifetime.
-/

/-- Helper: the refresh loop only writes registry slots whose index occurs
in its candidate list. -/
theorem loopFrom_get?_not_mem (ctx : PassCtx) (comps : List AssetComponent)
    (l : List ℕ) (i : ℕ) (h : i ∉ l) :
    (loopFrom ctx comps l).1.get? i = comps.get? i := by
  induction l generalizing comps with
  | nil => rfl
  | cons idx rest ih =>
    have hne : idx ≠ i := by rintro rfl; exact h (List.mem_cons_self _ _)
    have h' : i ∉ rest := fun hm => h (List.mem_cons_of_mem _ hm)
    cases hg : comps.get? idx with
    | none => simp only [loopFrom, hg]; exact ih comps h'
    | some comp =>
      cases hf : ctxFilterSkips ctx comp
      · cases hr : comp.ref with
        | none =>
          simp only [loopFrom, hg, hf, hr, Bool.false_eq_true, if_false]
          exact ih comps h'
        | some r =>
          cases hi : r.items with
          | none => simp only [loopFrom, hg, hf, hr, hi, Bool.false_eq_true, if_false]
          | some its =>
            simp only [loopFrom, hg, hf, hr, hi, Bool.false_eq_true, if_false]
            exact List.get?_set_ne _ _ hne
      · simp only [loopFrom, hg, hf, if_true]; exact ih comps h'

/-- Claim C8 counterexample: a pass over a single live handler whose
refresh rejects.  After the rejection the observer added before the refresh
call is still subscribed (`observers = [0]`) and no `observerRemoved`
effect was ever emitted — the subscription does not end when the refresh
call fails, contradicting "removed ... regardless of whether the call
succeeds or fails". -/
theorem observer_leak_on_rejection_cex :
    ((runEvents sLeak [.call none false false, .advance]).1.components.get? 0).bind (·.ref) =
      some ⟨some [], [0], 1, false, false⟩ ∧
    ((runEvents sLeak [.call none false false, .advance]).2.filterMap
      (fun e => match e with | .observerRemoved i o => some (i, o) | _ => none)) = [] := by
  decide

/-- Helper: unfolding of the resume step for a successfully resolving
handler refresh, in terms of the continuation of the loop. -/
theorem stepAdvance_ok (s : MachineState) (p : Pass) (rest : List Pass)
    (comp : AssetComponent) (r : HandlerRef)
    (hex : s.executing = p :: rest)
    (hc : s.components.get? p.susp.idx = some comp)
    (hr : comp.ref = some r) (hok : r.refreshOk = true) :
    stepAdvance s =
      (match loopFrom p.ctx (s.components.set p.susp.idx
          { comp with ref := some { r with observers := r.observers.erase p.susp.obs } })
          p.susp.rest with
       | (comps2, effs1, .suspended si) =>
          ({ s with components := comps2,
                    executing := { p with progress := advProgress p, susp := si } :: rest },
           advEffs p ++ effs1)
       | (comps2, effs1, .finished) =>
          if s.needsRefresh then
            ((refreshAllAssets
                { components := comps2, isRefreshing := false, needsRefresh := false,
                  executing := rest } none false false).1,
             advEffs p ++ effs1 ++ (if p.ctx.obj then [] else [Effect.taskClosed]) ++
               (refreshAllAssets
                 { components := comps2, isRefreshing := false, needsRefresh := false,
                   executing := rest } none false false).2)
          else
            ({ s with components := comps2, isRefreshing := false, executing := rest },
             advEffs p ++ effs1 ++ (if p.ctx.obj then [] else [Effect.taskClosed]))
       | (comps2, effs1, .threw) =>
          ({ s with components := comps2, executing := rest },
           advEffs p ++ effs1 ++ [Effect.typeErrorThrown])) := by
  unfold stepAdvance
  rw [hex]
  simp only [hc, hr, hok, eq_self_iff_true, if_true]

/-- Claim C8 (amended): the subscription to a handler's
`updateAssetObservable` lasts exactly for that handler's own refresh call
when the call resolves: the very first effect of the resume step removes
the observer that was added before the call, and the handler's subscription
list has it erased.  When the call rejects, the observer is not removed and
the handler's state is left untouched. -/
theorem observer_removed_on_success_only (s : MachineState) (p : Pass)
    (rest : List Pass) (comp : AssetComponent) (r : HandlerRef)
    (hex : s.executing = p :: rest)
    (hc : s.components.get? p.susp.idx = some comp)
    (hr : comp.ref = some r)
    (hnr : p.susp.idx ∉ p.susp.rest) :
    (r.refreshOk = true →
      (stepAdvance s).2.head? = some (Effect.observerRemoved p.susp.idx p.susp.obs) ∧
      (s.needsRefresh = false →
        ((stepAdvance s).1.components.get? p.susp.idx).bind (·.ref) =
          some { r with observers := r.observers.erase p.susp.obs })) ∧
    (r.refreshOk = false →
      stepAdvance s = ({ s with executing := rest }, [Effect.refreshRejected p.susp.idx])) := by
  constructor
  · intro hok
    obtain ⟨hlt, -⟩ := List.get?_eq_some.mp hc
    have hset : (s.components.set p.susp.idx
        { comp with ref := some { r with observers := r.observers.erase p.susp.obs } }).get?
          p.susp.idx =
        some { comp with ref := some { r with observers := r.observers.erase p.susp.obs } } :=
      List.get?_set_eq_of_lt _ hlt
    have hpres := loopFrom_get?_not_mem p.ctx (s.components.set p.susp.idx
        { comp with ref := some { r with observers := r.observers.erase p.susp.obs } })
        p.susp.rest p.susp.idx hnr
    rw [stepAdvance_ok s p rest comp r hex hc hr hok]
    rcases hl : loopFrom p.ctx (s.components.set p.susp.idx
        { comp with ref := some { r with observers := r.observers.erase p.susp.obs } })
        p.susp.rest with ⟨comps2, effs1, out⟩
    rw [hl] at hpres
    rw [hset] at hpres
    constructor
    · cases out with
      | suspended si => simp [advEffs]
      | finished =>
        by_cases hnrf : s.needsRefresh = true <;> simp [hnrf, advEffs]
      | threw => simp [advEffs]
    · intro hnrf
      simp only [List.get?_eq_getElem?] at hpres
      cases out with
      | suspended si => simp [hpres]
      | finished => simp [hnrf, hpres]
      | threw => simp [hpres]
  · intro hbad
    exact stepAdvance_reject s p rest comp r hex hc hr hbad

/-- Witness for C8's amended theorem: over `compsGood`, the head effect of
the successful resume of handler 0 removes exactly the observer added for
it. -/
theorem observer_removed_on_success_only_witness :
    (stepAdvance (runEvents sGood [.call none false false]).1).2.head? =
      some (Effect.observerRemoved 0 0) :=
  ((observer_removed_on_success_only (runEvents sGood [.call none false false]).1
    ⟨⟨none, false, false, .fin 100 2⟩, .fin 0 1, ⟨0, 0, .inf, [1]⟩⟩ []
    ⟨"A", "a", 0, 0, some ⟨some [], [0], 1, true, true⟩⟩
    ⟨some [], [0], 1, true, true⟩ (by decide) (by decide) rfl (by decide)).1 rfl).1

/-!
Claim C9 — a rejected refresh permanently wedges the coordinator.
-/

/-- Claim C9: when an awaited handler refresh rejects, the epilogue that
would clear `_isRefreshing` is skipped: the guard keeps its value (`true`
in any running pass), the pass is dropped, and only the rejection is
observable.  From any such stuck state (guard set, no pass executing),
every subsequent event sequence leaves the machine stuck: each refresh
call only sets the pending-rerun flag and returns busy, each
`addFilesToAssets` call is rejected with the busy alert, no pass ever
starts again, and the coordinator never returns to idle. -/
theorem rejection_leaves_coordinator_stuck :
    (∀ (s : MachineState) (p : Pass) (rest : List Pass) comp r,
      s.executing = p :: rest →
      s.components.get? p.susp.idx = some comp →
      comp.ref = some r → r.refreshOk = false →
      (stepAdvance s).1.isRefreshing = s.isRefreshing ∧
      (stepAdvance s).1.executing = rest ∧
      (stepAdvance s).2 = [Effect.refreshRejected p.susp.idx]) ∧
    (∀ (s : MachineState) (evs : List Event), Stuck s →
      Stuck (runEvents s evs).1 ∧
      ∀ e ∈ (runEvents s evs).2, e = Effect.returnedBusy ∨ e = Effect.alertShown) := by
  constructor
  · intro s p rest comp r hex hc hr hbad
    rw [stepAdvance_reject s p rest comp r hex hc hr hbad]
    exact ⟨rfl, rfl, rfl⟩
  · intro s evs h
    induction evs generalizing s with
    | nil => exact ⟨h, by simp [runEvents]⟩
    | cons e rest ih =>
      obtain ⟨href, hexe⟩ := h
      have hstep : (stepEvent s e).1.isRefreshing = true ∧ (stepEvent s e).1.executing = [] ∧
          ∀ x ∈ (stepEvent s e).2, x = Effect.returnedBusy ∨ x = Effect.alertShown := by
        cases e with
        | call f o frc =>
          simp [stepEvent, refreshAllAssets, refreshAllBase, href, hexe]
        | advance => simp [stepEvent, stepAdvance, hexe, href]
        | ingest => simp [stepEvent, addFilesToAssets, href, hexe]
      obtain ⟨h1, h2, h3⟩ := hstep
      have hrest := ih (stepEvent s e).1 ⟨h1, h2⟩
      refine ⟨?_, ?_⟩
      · simpa [runEvents] using hrest.1
      · intro x hx
        simp only [runEvents, List.mem_append] at hx
        rcases hx with hx | hx
        · exact h3 x hx
        · exact hrest.2 x hx

/-- Witness for C9 at a concrete stuck state: a busy call and an ingestion
attempt leave the machine stuck and produce only busy notices. -/
theorem rejection_leaves_coordinator_stuck_witness :
    Stuck (runEvents ⟨compsAB, true, false, []⟩ [.call none false false, .ingest]).1 ∧
    ∀ e ∈ (runEvents ⟨compsAB, true, false, []⟩ [.call none false false, .ingest]).2,
      e = Effect.returnedBusy ∨ e = Effect.alertShown :=
  rejection_leaves_coordinator_stuck.2 ⟨compsAB, true, false, []⟩
    [.call none false false, .ingest] ⟨rfl, rfl⟩

/-!
Claim C10 — progress arithmetic of file ingestion.
-/

/-- Value reported by the ingestion loop after the handler at 0-based
position `i`, with `n` live handlers: `length / i * 100`. -/
def ingVal (n i : ℕ) : JSNum :=
  jsMul (jsDiv (.fin n 1) (.fin i 1)) (.fin 100 1)

/-- Helper: `taskValues` distributes over trace concatenation. -/
theorem taskValues_append (a b : List Effect) :
    taskValues (a ++ b) = taskValues a ++ taskValues b :=
  List.filterMap_append ..

/-- Helper: a reported value heads the value list. -/
theorem taskValues_cons_upd (v : JSNum) (l : List Effect) :
    taskValues (Effect.taskUpdated v :: l) = v :: taskValues l := rfl

/-- Helper: a hook invocation reports no value. -/
theorem taskValues_cons_drop (i : ℕ) (l : List Effect) :
    taskValues (Effect.onDropInvoked i :: l) = taskValues l := rfl

/-- Helper: the values the ingestion loop reports are `n / i * 100` for the
0-based position `i` of each live handler. -/
theorem taskValues_dropFilesLoop (comps : List HandlerRef) (n i : ℕ) :
    taskValues (dropFilesLoop comps n i) =
      (List.range comps.length).map (fun k => ingVal n (i + k)) := by
  induction comps generalizing i with
  | nil => rfl
  | cons c rest ih =>
    have key : taskValues (dropFilesLoop (c :: rest) n i) =
        ingVal n i :: (List.range rest.length).map (fun k => ingVal n ((i + 1) + k)) := by
      cases hd : c.hasOnDropFiles <;>
        simp [dropFilesLoop, hd, taskValues_cons_upd, taskValues_cons_drop, ih (i + 1), ingVal]
    rw [key, List.length_cons, List.range_succ_eq_map, List.map_cons, List.map_map]
    refine congrArg₂ List.cons (by rw [Nat.add_zero]) ?_
    refine (List.map_congr_left fun a _ => ?_).symm
    show ingVal n (i + Nat.succ a) = ingVal n (i + 1 + a)
    have harg : i + Nat.succ a = i + 1 + a := by omega
    rw [harg]

/-- Claim C10: a non-busy `addFilesToAssets` call over `n ≥ 1` live
handlers opens a task, reports `length / i * 100` after the handler at
0-based position `i` (the update after each handler regardless of whether
it consumed files), closes the task, and triggers a full refresh.  The
first reported value divides by zero and is `Infinity`; and for `n ≥ 2`
the finite values reported after it strictly decrease instead of growing
toward 100. -/
theorem ingest_progress_division_by_zero (s : MachineState) (n : ℕ)
    (hbusy : s.isRefreshing = false)
    (hn : (s.components.filterMap (·.ref)).length = n) (h1 : 1 ≤ n) :
    (addFilesToAssets s).2 =
      [Effect.taskOpened] ++ dropFilesLoop (s.components.filterMap (·.ref)) n 0 ++
      [Effect.taskClosed] ++ (refreshAllAssets s none false false).2 ∧
    taskValues (dropFilesLoop (s.components.filterMap (·.ref)) n 0) =
      (List.range n).map (ingVal n) ∧
    ingVal n 0 = JSNum.inf ∧
    (∀ i j : ℕ, 1 ≤ i → i < j → j < n →
      jsLt (ingVal n j) (ingVal n i) = true) := by
  have hpos : (0 : ℤ) < (n : ℤ) := by exact_mod_cast h1
  refine ⟨?_, ?_, ?_, ?_⟩
  · simp [addFilesToAssets, hbusy, hn]
  · rw [taskValues_dropFilesLoop, hn]
    simp
  · simp [ingVal, jsDiv, jsMul, hpos, hpos.ne']
  · intro i j hi hij hjn
    have hip : (0 : ℤ) < (i : ℤ) := by exact_mod_cast (by omega : 0 < i)
    have hjp : (0 : ℤ) < (j : ℤ) := by exact_mod_cast (by omega : 0 < j)
    have hijz : (i : ℤ) < (j : ℤ) := by exact_mod_cast hij
    simp [ingVal, jsDiv, jsMul, jsLt, hip.ne', hjp.ne', Int.sign_eq_one_of_pos hip,
      Int.sign_eq_one_of_pos hjp]
    nlinarith

/-- Witness for C10 over `compsGood` (two live handlers): the reported
values are exactly `2/0*100 = Infinity` and `2/1*100`. -/
theorem ingest_progress_division_by_zero_witness :
    taskValues (dropFilesLoop (sGood.components.filterMap (·.ref)) 2 0) =
      (List.range 2).map (ingVal 2) :=
  (ingest_progress_division_by_zero sGood 2 rfl rfl (by norm_num)).2.1

/-!
Claim C4 — cache snapshot / restore round trip.
-/

/-- Helper: writing a fresh key appends it. -/
theorem dictInsert_of_not_mem (d : List (String × Option (List AssetItem))) (k : String)
    (v : Option (List AssetItem)) (h : ∀ kv ∈ d, kv.1 ≠ k) :
    dictInsert d k v = d ++ [(k, v)] := by
  have hany : d.any (fun kv => kv.1 == k) = false := by
    rw [List.any_eq_false]
    intro kv hkv
    simp [h kv hkv]
  unfold dictInsert
  rw [hany]
  simp

/-- Helper: the element at the length of a prefix. -/
theorem get?_append_len {α : Type} (l1 l2 : List α) (c : α) :
    (l1 ++ c :: l2).get? l1.length = some c := by
  induction l1 with
  | nil => rfl
  | cons a l1 ih => simpa using ih

/-- Helper: setting at the length of a prefix. -/
theorem set_append_len {α : Type} (l1 l2 : List α) (c x : α) :
    (l1 ++ c :: l2).set l1.length x = l1 ++ x :: l2 := by
  induction l1 with
  | nil => rfl
  | cons a l1 ih =>
    show a :: (l1 ++ c :: l2).set l1.length x = a :: (l1 ++ x :: l2)
    rw [ih]

/-- Helper: index of the first title match when the prefix is fresh. -/
theorem findIdx?_title (pre : List AssetComponent) (c : AssetComponent)
    (rest : List AssetComponent) (hfresh : ∀ p ∈ pre, p.title ≠ c.title) :
    (pre ++ c :: rest).findIdx? (fun ac => ac.title == c.title) = some pre.length := by
  induction pre with
  | nil =>
    rw [List.nil_append, List.findIdx?_cons]
    simp
  | cons p pre ih =>
    have hp : (p.title == c.title) = false := by
      simpa using hfresh p (List.mem_cons_self _ _)
    rw [List.cons_append, List.findIdx?_cons, hp, if_neg (by simp), List.findIdx?_succ,
      ih (fun q hq => hfresh q (List.mem_cons_of_mem _ hq))]
    rfl

/-- Helper: one `restoreStep` writes the saved list into the unique live
descriptor carrying the key's title. -/
theorem restoreStep_at (pre : List AssetComponent) (c : AssetComponent)
    (rest : List AssetComponent) (v : Option (List AssetItem)) (r : HandlerRef)
    (hfresh : ∀ p ∈ pre, p.title ≠ c.title) (hr : c.ref = some r) :
    restoreStep (pre ++ c :: rest) (c.title, v) =
      pre ++ { c with ref := some { r with items := v } } :: rest := by
  unfold restoreStep
  rw [findIdx?_title pre c rest hfresh]
  simp only [get?_append_len, hr]
  exact set_append_len pre rest c _

/-- Helper: the snapshot fold produces one entry per descriptor, in
registration order, when titles are distinct and every handler is live with
defined items. -/
theorem getCachedData_go (comps : List AssetComponent)
    (acc : List (String × Option (List AssetItem)))
    (hnd : (comps.map (·.title)).Nodup)
    (hlive : ∀ c ∈ comps, ∃ r its, c.ref = some r ∧ r.items = some its)
    (hacc : ∀ c ∈ comps, ∀ kv ∈ acc, kv.1 ≠ c.title) :
    List.foldlM cacheStep acc comps =
      .ok (acc ++ comps.map (fun c =>
        (c.title, (c.ref.bind (·.items)).map (fun its => its.map project4)))) := by
  induction comps generalizing acc with
  | nil => simp [pure, Except.pure]
  | cons c rest ih =>
    obtain ⟨r, its, hr, hits⟩ := hlive c (List.mem_cons_self _ _)
    have hstep : cacheStep acc c = .ok (acc ++ [(c.title, some (its.map project4))]) := by
      unfold cacheStep
      simp only [hr, hits]
      rw [dictInsert_of_not_mem acc c.title _
        (fun kv hkv => hacc c (List.mem_cons_self _ _) kv hkv)]
    rw [List.foldlM_cons, hstep]
    simp only [List.map_cons, List.nodup_cons] at hnd
    have hrec := ih (acc ++ [(c.title, some (its.map project4))]) hnd.2
      (fun c' hc' => hlive c' (List.mem_cons_of_mem _ hc'))
      (fun c' hc' kv hkv => by
        rcases List.mem_append.mp hkv with hkv | hkv
        · exact hacc c' (List.mem_cons_of_mem _ hc') kv hkv
        · have hkv' : kv = (c.title, some (its.map project4)) := by simpa using hkv
          subst hkv'
          show c.title ≠ c'.title
          intro hcontra
          refine hnd.1 ?_
          rw [hcontra]
          exact List.mem_map_of_mem (·.title) hc')
    have hbind : (Except.ok (acc ++ [(c.title, some (its.map project4))]) >>= fun x =>
        List.foldlM cacheStep x rest : Except JSError _) =
        List.foldlM cacheStep (acc ++ [(c.title, some (its.map project4))]) rest := rfl
    rw [hbind, hrec]
    simp [hr, hits]

/-- Helper: the restore fold over distinct-title entries updates each live
descriptor's items with its entry's value, in place. -/
theorem setCachedData_go (f : AssetComponent → Option (List AssetItem))
    (suf : List AssetComponent) :
    ∀ (pre : List AssetComponent),
      (∀ c ∈ suf, ∀ p ∈ pre, p.title ≠ c.title) →
      ((suf.map (·.title)).Nodup) →
      (∀ c ∈ suf, ∃ r, c.ref = some r) →
      List.foldl restoreStep (pre ++ suf) (suf.map (fun c => (c.title, f c))) =
        pre ++ suf.map (fun c =>
          { c with ref := c.ref.map (fun r => { r with items := f c }) }) := by
  induction suf with
  | nil => intro pre _ _ _; simp
  | cons c rest ih =>
    intro pre hfr hnd hlv
    obtain ⟨r, hr⟩ := hlv c (List.mem_cons_self _ _)
    simp only [List.map_cons, List.nodup_cons] at hnd
    rw [List.map_cons, List.foldl_cons,
      restoreStep_at pre c rest (f c) r (fun p hp => hfr c (List.mem_cons_self _ _) p hp) hr]
    have hrec := ih (pre ++ [{ c with ref := some { r with items := f c } }])
      (fun c' hc' p hp => by
        rcases List.mem_append.mp hp with hp | hp
        · exact hfr c' (List.mem_cons_of_mem _ hc') p hp
        · have hp' : p = { c with ref := some { r with items := f c } } := by simpa using hp
          subst hp'
          show c.title ≠ c'.title
          intro hcontra
          refine hnd.1 ?_
          rw [hcontra]
          exact List.mem_map_of_mem (·.title) hc')
      hnd.2 (fun c' hc' => hlv c' (List.mem_cons_of_mem _ hc'))
    simp only [List.append_assoc, List.singleton_append] at hrec
    rw [hrec]
    simp [hr]

/-- Claim C4 counterexample: two live descriptors share the title `"T"`.
The snapshot keeps only the second one's items under that title, and the
restore writes them into the first descriptor, so the round trip does not
reproduce each live handler's item list restricted to the four persisted
fields — although every title appearing in the snapshot has a live
handler. -/
theorem cached_data_roundtrip_cex :
    GetCachedData compsDup = .ok [("T", some [project4 itemB])] ∧
    (∀ c ∈ compsDup, c.ref.isSome = true) ∧
    (SetCachedData compsDup [("T", some [project4 itemB])]).map
        (fun c => c.ref.bind (·.items)) =
      [some [project4 itemB], some [itemB]] ∧
    [some [project4 itemB], some [itemB]] ≠
      compsDup.map (fun c => (c.ref.bind (·.items)).map (fun its => its.map project4)) :=
  ⟨rfl, by decide, by decide, by decide⟩

/-- Claim C4 (amended): for every registry whose titles are pairwise
distinct and in which every descriptor has a live handler with a defined
item list (so in particular every title appearing in the snapshot has a
live handler), `GetCachedData` followed immediately by `SetCachedData` of
the returned map reproduces each live handler's item list exactly,
restricted to the four persisted fields `id`, `key`, `base64`, `style`. -/
theorem cached_data_roundtrip (comps : List AssetComponent)
    (hnd : (comps.map (·.title)).Nodup)
    (hlive : ∀ c ∈ comps, ∃ r its, c.ref = some r ∧ r.items = some its) :
    GetCachedData comps = .ok (comps.map (fun c =>
      (c.title, (c.ref.bind (·.items)).map (fun its => its.map project4)))) ∧
    SetCachedData comps (comps.map (fun c =>
      (c.title, (c.ref.bind (·.items)).map (fun its => its.map project4)))) =
      comps.map (fun c => { c with
        ref := c.ref.map (fun r =>
          { r with items := r.items.map (fun its => its.map project4) }) }) := by
  constructor
  · simpa [GetCachedData] using getCachedData_go comps [] hnd hlive (by simp)
  · have h := setCachedData_go
      (fun c => (c.ref.bind (·.items)).map (fun its => its.map project4)) comps []
      (by simp) hnd (fun c hc => by
        obtain ⟨r, its, hr, -⟩ := hlive c hc
        exact ⟨r, hr⟩)
    rw [List.nil_append] at h
    rw [SetCachedData, h]
    refine List.map_congr_left fun c hc => ?_
    obtain ⟨r, its, hr, hits⟩ := hlive c hc
    simp [hr, hits]

/-- Registry with two live descriptors with distinct titles, used as the
round-trip witness. -/
def compsSnap : List AssetComponent :=
  [⟨"T1", "id1", 0, 0, some ⟨some [itemA], [], 0, true, false⟩⟩,
   ⟨"T2", "id2", 1, 1, some ⟨some [itemB], [], 0, true, false⟩⟩]

/-- Witness for C4's amended round-trip law on `compsSnap`. -/
theorem cached_data_roundtrip_witness :
    GetCachedData compsSnap = .ok (compsSnap.map (fun c =>
      (c.title, (c.ref.bind (·.items)).map (fun its => its.map project4)))) ∧
    SetCachedData compsSnap (compsSnap.map (fun c =>
      (c.title, (c.ref.bind (·.items)).map (fun its => its.map project4)))) =
      compsSnap.map (fun c => { c with
        ref := c.ref.map (fun r =>
          { r with items := r.items.map (fun its => its.map project4) }) }) :=
  cached_data_roundtrip compsSnap (by decide)
    (by
      rintro c hc
      simp only [compsSnap, List.mem_cons, List.not_mem_nil, or_false] at hc
      rcases hc with rfl | rfl
      · exact ⟨_, _, rfl, rfl⟩
      · exact ⟨_, _, rfl, rfl⟩)

/-!
Machinery for whole refresh passes: the registry skeleton is invariant
during a pass, the loop visits exactly `visitList`, and draining a
suspended pass with resume events reaches idle.
-/

/-- A suspension points at a registered descriptor with a live instance. -/
def ValidSusp (comps : List AssetComponent) (si : SuspendInfo) : Prop :=
  ∃ comp r, comps.get? si.idx = some comp ∧ comp.ref = some r

/-- Helper: setting a position to the element it already holds. -/
theorem set_get?_self {α : Type} (l : List α) (i : ℕ) (a : α)
    (h : l.get? i = some a) : l.set i a = l := by
  induction l generalizing i with
  | nil => rfl
  | cons x xs ih =>
    cases i with
    | zero =>
      have hx : x = a := by simpa using h
      subst hx; rfl
    | succ n =>
      show x :: xs.set n a = x :: xs
      rw [ih n (by simpa using h)]

/-- Helper: the skeleton is untouched when a slot's descriptor is replaced
by one with the same constructor and liveness. -/
theorem skel_set (comps : List AssetComponent) (i : ℕ) (comp comp' : AssetComponent)
    (hc : comps.get? i = some comp)
    (hct : comp'.ctor = comp.ctor) (hrf : comp'.ref.isSome = comp.ref.isSome) :
    skel (comps.set i comp') = skel comps := by
  unfold skel
  rw [List.map_set]
  apply set_get?_self
  rw [List.get?_map, hc]
  simp [hct, hrf]

/-- Helper: goodness survives replacing a slot with a good descriptor. -/
theorem GoodComps_set (comps : List AssetComponent) (i : ℕ) (comp' : AssetComponent)
    (hgood : GoodComps comps) (hg : goodComp comp' = true) :
    GoodComps (comps.set i comp') := by
  intro c hc
  rcases List.mem_or_eq_of_mem_set hc with hc | rfl
  · exact hgood c hc
  · exact hg

/-- Helper: a good live handler's refresh resolves and its items are
defined. -/
theorem goodComp_ref (comp : AssetComponent) (r : HandlerRef)
    (hg : goodComp comp = true) (hr : comp.ref = some r) :
    r.refreshOk = true ∧ ∃ its, r.items = some its := by
  unfold goodComp at hg
  rw [hr] at hg
  simp only [Bool.and_eq_true, Option.isSome_iff_exists] at hg
  exact ⟨hg.1, hg.2⟩

/-- Helper: characterization of a loop segment that suspends — it visits
the suspension's handler first, strictly shrinks the candidate list,
preserves the skeleton and goodness, and emits exactly one refresh
invocation (with an empty item list and a preceding clear when forcing). -/
theorem loopFrom_suspended_spec (ctx : PassCtx) :
    ∀ (l : List ℕ) (comps comps2 : List AssetComponent) (effs : List Effect)
      (si : SuspendInfo),
      GoodComps comps →
      loopFrom ctx comps l = (comps2, effs, .suspended si) →
      visitList ctx.filter (skel comps) l =
        si.idx :: visitList ctx.filter (skel comps) si.rest ∧
      si.rest.length < l.length ∧
      skel comps2 = skel comps ∧
      GoodComps comps2 ∧
      ValidSusp comps2 si ∧
      effs.filterMap seqTag = [(true, si.idx)] ∧
      effs.filterMap startTag = [] ∧
      (ctx.force = true →
        (∀ i its, Effect.refreshInvoked i its ∈ effs → its = []) ∧
        Effect.itemsCleared si.idx ∈ effs) := by
  intro l
  induction l with
  | nil =>
    intro comps comps2 effs si _ h
    simp [loopFrom] at h
  | cons idx rest ih =>
    intro comps comps2 effs si hgood h
    cases hg : comps.get? idx with
    | none =>
      simp only [loopFrom, hg] at h
      have hsk : (skel comps).get? idx = none := by
        rw [skel, List.get?_map, hg]; rfl
      obtain ⟨h1, h2, h3⟩ := ih comps comps2 effs si hgood h
      exact ⟨by simp only [visitList, hsk]; exact h1,
        Nat.lt_succ_of_lt h2, h3⟩
    | some comp =>
      have hsk : (skel comps).get? idx = some (comp.ctor, comp.ref.isSome) := by
        rw [skel, List.get?_map, hg]; rfl
      cases hf : ctxFilterSkips ctx comp with
      | true =>
        simp only [loopFrom, hg, hf, if_true] at h
        obtain ⟨h1, h2, h3⟩ := ih comps comps2 effs si hgood h
        have hf' : filterSkipsAt ctx.filter comp.ctor = true := hf
        exact ⟨by simp only [visitList, hsk, hf', if_true]; exact h1,
          Nat.lt_succ_of_lt h2, h3⟩
      | false =>
        cases hr : comp.ref with
        | none =>
          simp only [loopFrom, hg, hf, hr, Bool.false_eq_true, if_false] at h
          have hf' : filterSkipsAt ctx.filter comp.ctor = false := hf
          have hsk' : (skel comps).get? idx = some (comp.ctor, false) := by
            rw [hsk, hr]; rfl
          obtain ⟨h1, h2, h3⟩ := ih comps comps2 effs si hgood h
          exact ⟨by
              simp only [visitList, hsk', hf', Bool.false_eq_true, if_false]
              exact h1,
            Nat.lt_succ_of_lt h2, h3⟩
        | some r =>
          obtain ⟨hok, its, hits⟩ := goodComp_ref comp r (hgood comp (List.get?_mem hg)) hr
          obtain ⟨hlt, -⟩ := List.get?_eq_some.mp hg
          have hf' : filterSkipsAt ctx.filter comp.ctor = false := hf
          have hsk' : (skel comps).get? idx = some (comp.ctor, true) := by
            rw [hsk, hr]; rfl
          simp only [loopFrom, hg, hf, hr, hits, Bool.false_eq_true, if_false,
            Prod.mk.injEq, PassOut.suspended.injEq] at h
          obtain ⟨hcomps2, heffs, hsi⟩ := h
          subst hcomps2
          subst heffs
          subst hsi
          refine ⟨?_, Nat.lt_succ_self _, ?_, ?_, ?_, ?_, ?_, ?_⟩
          · simp only [visitList, hsk', hf', Bool.false_eq_true, if_false, if_true]
          · exact skel_set comps idx comp _ hg rfl (by simp [hr])
          · refine GoodComps_set comps idx _ hgood ?_
            unfold goodComp
            cases hforce : ctx.force <;> simp [hforce, hok, hits]
          · refine ⟨_, _, List.get?_set_eq_of_lt _ hlt, rfl⟩
          · cases hforce : ctx.force <;> simp [hforce, seqTag]
          · cases hforce : ctx.force <;> simp [hforce, startTag]
          · intro hforce
            constructor
            · intro i its' hmem
              simp [hforce] at hmem
              exact hmem.2
            · simp [hforce]

/-- Helper: a loop segment that runs to the end of the registry without
suspending never touched the registry, emitted nothing, and had nothing to
visit. -/
theorem loopFrom_finished_spec (ctx : PassCtx) :
    ∀ (l : List ℕ) (comps comps2 : List AssetComponent) (effs : List Effect),
      loopFrom ctx comps l = (comps2, effs, .finished) →
      comps2 = comps ∧ effs = [] ∧ visitList ctx.filter (skel comps) l = [] := by
  intro l
  induction l with
  | nil =>
    intro comps comps2 effs h
    simp only [loopFrom, Prod.mk.injEq] at h
    exact ⟨h.1.symm, h.2.1.symm, rfl⟩
  | cons idx rest ih =>
    intro comps comps2 effs h
    cases hg : comps.get? idx with
    | none =>
      simp only [loopFrom, hg] at h
      have hsk : (skel comps).get? idx = none := by
        rw [skel, List.get?_map, hg]; rfl
      obtain ⟨h1, h2, h3⟩ := ih comps comps2 effs h
      exact ⟨h1, h2, by simp only [visitList, hsk]; exact h3⟩
    | some comp =>
      have hsk : (skel comps).get? idx = some (comp.ctor, comp.ref.isSome) := by
        rw [skel, List.get?_map, hg]; rfl
      cases hf : ctxFilterSkips ctx comp with
      | true =>
        simp only [loopFrom, hg, hf, if_true] at h
        have hf' : filterSkipsAt ctx.filter comp.ctor = true := hf
        obtain ⟨h1, h2, h3⟩ := ih comps comps2 effs h
        exact ⟨h1, h2, by simp only [visitList, hsk, hf', if_true]; exact h3⟩
      | false =>
        cases hr : comp.ref with
        | none =>
          simp only [loopFrom, hg, hf, hr, Bool.false_eq_true, if_false] at h
          have hf' : filterSkipsAt ctx.filter comp.ctor = false := hf
          have hsk' : (skel comps).get? idx = some (comp.ctor, false) := by
            rw [hsk, hr]; rfl
          obtain ⟨h1, h2, h3⟩ := ih comps comps2 effs h
          exact ⟨h1, h2, by
            simp only [visitList, hsk', hf', Bool.false_eq_true, if_false]
            exact h3⟩
        | some r =>
          cases hits : r.items with
          | none =>
            simp only [loopFrom, hg, hf, hr, hits, Bool.false_eq_true, if_false,
              Prod.mk.injEq] at h
            exact absurd h.2.2 (by simp)
          | some its =>
            simp only [loopFrom, hg, hf, hr, hits, Bool.false_eq_true, if_false,
              Prod.mk.injEq] at h
            exact absurd h.2.2 (by simp)

/-- Helper: over a good registry the loop never throws. -/
theorem loopFrom_no_threw (ctx : PassCtx) :
    ∀ (l : List ℕ) (comps comps2 : List AssetComponent) (effs : List Effect),
      GoodComps comps →
      loopFrom ctx comps l = (comps2, effs, .threw) → False := by
  intro l
  induction l with
  | nil =>
    intro comps comps2 effs _ h
    simp [loopFrom] at h
  | cons idx rest ih =>
    intro comps comps2 effs hgood h
    cases hg : comps.get? idx with
    | none =>
      simp only [loopFrom, hg] at h
      exact ih comps comps2 effs hgood h
    | some comp =>
      cases hf : ctxFilterSkips ctx comp with
      | true =>
        simp only [loopFrom, hg, hf, if_true] at h
        exact ih comps comps2 effs hgood h
      | false =>
        cases hr : comp.ref with
        | none =>
          simp only [loopFrom, hg, hf, hr, Bool.false_eq_true, if_false] at h
          exact ih comps comps2 effs hgood h
        | some r =>
          obtain ⟨hok, its, hits⟩ := goodComp_ref comp r (hgood comp (List.get?_mem hg)) hr
          simp only [loopFrom, hg, hf, hr, hits, Bool.false_eq_true, if_false,
            Prod.mk.injEq] at h
          exact absurd h.2.2 (by simp)

/-- Helper: a resume event in an idle machine is a no-op. -/
theorem stepAdvance_nil (s : MachineState) (hex : s.executing = []) :
    stepAdvance s = (s, []) := by
  unfold stepAdvance
  rw [hex]

/-- Helper: unfolding one event of a run. -/
theorem runEvents_cons (s : MachineState) (e : Event) (rest : List Event) :
    runEvents s (e :: rest) =
      ((runEvents (stepEvent s e).1 rest).1,
        (stepEvent s e).2 ++ (runEvents (stepEvent s e).1 rest).2) := rfl

/-- Helper: a run of resume events in an idle machine is a no-op. -/
theorem runEvents_advance_nil (s : MachineState) (hex : s.executing = []) :
    ∀ m, runEvents s (List.replicate m Event.advance) = (s, []) := by
  intro m
  induction m with
  | zero => rfl
  | succ m ih =>
    rw [List.replicate_succ, runEvents_cons]
    have hstep : stepEvent s .advance = (s, []) := stepAdvance_nil s hex
    rw [hstep]
    simp [ih]

/-- Helper: a refresh call in an idle machine with no pending rerun either
completes synchronously (no live handler matched — the loop never
suspended) or leaves exactly one suspended pass; either way it emits
exactly one `passStarted` carrying the call's arguments. -/
theorem refreshAllAssets_idle (s : MachineState) (f : Option ℕ) (o frc : Bool)
    (hb : s.isRefreshing = false) (hnr : s.needsRefresh = false)
    (hex : s.executing = []) (hgood : GoodComps s.components) :
    ∃ s1 tr1, refreshAllAssets s f o frc = (s1, tr1) ∧
      skel s1.components = skel s.components ∧
      GoodComps s1.components ∧
      s1.needsRefresh = false ∧
      tr1.filterMap startTag = [(f, o, frc)] ∧
      ((s1.executing = [] ∧ s1.isRefreshing = false ∧
        visitList f (skel s.components) (List.range s.components.length) = [] ∧
        tr1.filterMap seqTag = []) ∨
       (∃ p1, s1.executing = [p1] ∧ s1.isRefreshing = true ∧
        p1.ctx = ⟨f, o, frc, jsDiv (.fin 100 1) (.fin s.components.length 1)⟩ ∧
        ValidSusp s1.components p1.susp ∧
        visitList f (skel s.components) (List.range s.components.length) =
          p1.susp.idx :: visitList f (skel s.components) p1.susp.rest ∧
        tr1.filterMap seqTag = [(true, p1.susp.idx)] ∧
        (frc = true →
          (∀ i its, Effect.refreshInvoked i its ∈ tr1 → its = []) ∧
          Effect.itemsCleared p1.susp.idx ∈ tr1))) := by
  rcases hl : loopFrom ⟨f, o, frc, jsDiv (.fin 100 1) (.fin s.components.length 1)⟩
      s.components (List.range s.components.length) with ⟨comps2, effs, out⟩
  cases out with
  | suspended si =>
    obtain ⟨hv, hlen, hskel, hgood2, hvalid, hseq, hstart, hforce⟩ :=
      loopFrom_suspended_spec _ _ _ _ _ _ hgood hl
    refine ⟨{ s with
                components := comps2,
                isRefreshing := true,
                executing := [⟨⟨f, o, frc, jsDiv (.fin 100 1) (.fin s.components.length 1)⟩,
                  .fin 0 1, si⟩] },
      ([Effect.passStarted f o frc] ++ (if o then [] else [Effect.taskOpened])) ++ effs,
      ?_, hskel, hgood2, hnr, ?_, Or.inr ⟨_, rfl, rfl, rfl, hvalid, hv, ?_, ?_⟩⟩
    · simp [refreshAllAssets, refreshAllBase, hb, hex, hl]
    · cases o <;> simp [startTag, hstart]
    · cases o <;> simp [seqTag, hseq]
    · intro hfrc
      obtain ⟨hf1, hf2⟩ := hforce hfrc
      constructor
      · intro i its hmem
        refine hf1 i its ?_
        rcases List.mem_append.mp hmem with hmem | hmem
        · cases o <;> simp at hmem
        · exact hmem
      · exact List.mem_append.mpr (Or.inr hf2)
  | finished =>
    obtain ⟨hc2, heffs, hv⟩ := loopFrom_finished_spec _ _ _ _ _ hl
    subst hc2
    subst heffs
    refine ⟨{ s with components := s.components, isRefreshing := false },
      ([Effect.passStarted f o frc] ++ (if o then [] else [Effect.taskOpened])) ++ [] ++
        (if o then [] else [Effect.taskClosed]),
      ?_, rfl, hgood, hnr, ?_, Or.inl ⟨hex, rfl, hv, ?_⟩⟩
    · simp [refreshAllAssets, refreshAllBase, hb, hex, hl, hnr]
    · cases o <;> simp [startTag]
    · cases o <;> simp [seqTag]
  | threw =>
    exact (loopFrom_no_threw _ _ _ _ _ hgood hl).elim

/-- Helper: trace content of the resume-step effects. -/
theorem advEffs_tags (p : Pass) :
    (advEffs p).filterMap seqTag = [(false, p.susp.idx)] ∧
    (advEffs p).filterMap startTag = [] ∧
    (∀ i its, Effect.refreshInvoked i its ∈ advEffs p → False) ∧
    (∀ i, Effect.itemsCleared i ∈ advEffs p → False) := by
  unfold advEffs
  cases hb : advBump p <;> simp [seqTag, startTag]

/-- Helper: tag pattern of a strictly sequential visit list. -/
theorem pairTags_cons (i : ℕ) (l : List ℕ) :
    pairTags (i :: l) = (true, i) :: (false, i) :: pairTags l := by
  simp [pairTags]

/-- Helper: the resume step when the continued loop runs to the end and no
rerun is pending — the pass completes, the task closes, and the guard
clears. -/
theorem drain_finished_step (s : MachineState) (p : Pass) (comp : AssetComponent)
    (r : HandlerRef) (comps2 : List AssetComponent)
    (hex : s.executing = [p])
    (hc : s.components.get? p.susp.idx = some comp)
    (hr : comp.ref = some r) (hok : r.refreshOk = true)
    (hnr : s.needsRefresh = false)
    (hl : loopFrom p.ctx (s.components.set p.susp.idx
        { comp with ref := some { r with observers := r.observers.erase p.susp.obs } })
        p.susp.rest = (comps2, [], .finished)) :
    stepAdvance s =
      ({ s with components := comps2, isRefreshing := false, executing := [] },
       advEffs p ++ (if p.ctx.obj then [] else [Effect.taskClosed])) := by
  rw [stepAdvance_ok s p [] comp r hex hc hr hok, hl]
  simp [hnr]

/-- Helper: the resume step when the continued loop suspends at the next
live handler. -/
theorem drain_suspended_step (s : MachineState) (p : Pass) (comp : AssetComponent)
    (r : HandlerRef) (comps2 : List AssetComponent) (effs1 : List Effect)
    (si : SuspendInfo)
    (hex : s.executing = [p])
    (hc : s.components.get? p.susp.idx = some comp)
    (hr : comp.ref = some r) (hok : r.refreshOk = true)
    (hl : loopFrom p.ctx (s.components.set p.susp.idx
        { comp with ref := some { r with observers := r.observers.erase p.susp.obs } })
        p.susp.rest = (comps2, effs1, .suspended si)) :
    stepAdvance s =
      ({ s with components := comps2,
                executing := [{ p with progress := advProgress p, susp := si }] },
       advEffs p ++ effs1) := by
  rw [stepAdvance_ok s p [] comp r hex hc hr hok, hl]

/-- Helper: draining a suspended pass with no pending rerun: some number of
resume events completes the pass, reaching the idle state, having refreshed
exactly the handlers `visitList` names, strictly sequentially, with no
further pass started; under `force`, every refresh was invoked on an
emptied item list, after the corresponding clear. -/
theorem drain_no_pending (k : ℕ) :
    ∀ (s : MachineState) (p : Pass),
      p.susp.rest.length ≤ k →
      s.executing = [p] →
      s.needsRefresh = false →
      GoodComps s.components →
      ValidSusp s.components p.susp →
      ∃ m s' tr, runEvents s (List.replicate m Event.advance) = (s', tr) ∧
        s'.executing = [] ∧ s'.isRefreshing = false ∧ s'.needsRefresh = false ∧
        skel s'.components = skel s.components ∧
        GoodComps s'.components ∧
        tr.filterMap seqTag =
          (false, p.susp.idx) ::
            pairTags (visitList p.ctx.filter (skel s.components) p.susp.rest) ∧
        tr.filterMap startTag = [] ∧
        (p.ctx.force = true →
          (∀ i its, Effect.refreshInvoked i its ∈ tr → its = []) ∧
          (∀ i ∈ visitList p.ctx.filter (skel s.components) p.susp.rest,
            Effect.itemsCleared i ∈ tr)) := by
  induction k with
  | zero =>
    intro s p hk hex hnr hgood hval
    obtain ⟨comp, r, hc, hr⟩ := hval
    obtain ⟨hok, its, hits⟩ := goodComp_ref comp r (hgood comp (List.get?_mem hc)) hr
    have hrest : p.susp.rest = [] := List.length_eq_zero.mp (Nat.le_zero.mp hk)
    have hskel1 : skel (s.components.set p.susp.idx
        { comp with ref := some { r with observers := r.observers.erase p.susp.obs } }) =
        skel s.components :=
      skel_set s.components p.susp.idx comp _ hc rfl (by simp [hr])
    have hgood1 : GoodComps (s.components.set p.susp.idx
        { comp with ref := some { r with observers := r.observers.erase p.susp.obs } }) := by
      refine GoodComps_set _ _ _ hgood ?_
      unfold goodComp
      simp [hok, hits]
    have hl : loopFrom p.ctx (s.components.set p.susp.idx
        { comp with ref := some { r with observers := r.observers.erase p.susp.obs } })
        p.susp.rest =
        (s.components.set p.susp.idx
          { comp with ref := some { r with observers := r.observers.erase p.susp.obs } },
         [], .finished) := by
      rw [hrest]; rfl
    have hstep := drain_finished_step s p comp r _ hex hc hr hok hnr hl
    refine ⟨1,
      { s with
          components := s.components.set p.susp.idx
            { comp with ref := some { r with observers := r.observers.erase p.susp.obs } },
          isRefreshing := false,
          executing := [] },
      (advEffs p ++ (if p.ctx.obj then [] else [Effect.taskClosed])) ++ [],
      ?_, rfl, rfl, hnr, hskel1, hgood1, ?_, ?_, ?_⟩
    · rw [show List.replicate 1 Event.advance = [Event.advance] from rfl, runEvents_cons]
      rw [show stepEvent s Event.advance = stepAdvance s from rfl, hstep]
      rfl
    · obtain ⟨ht1, -, -, -⟩ := advEffs_tags p
      rw [hrest]
      cases ho : p.ctx.obj <;>
        simp [List.filterMap_append, ht1, seqTag, visitList, pairTags]
    · obtain ⟨-, ht2, -, -⟩ := advEffs_tags p
      cases ho : p.ctx.obj <;> simp [List.filterMap_append, ht2, startTag]
    · intro hfrc
      obtain ⟨-, -, ht3, ht4⟩ := advEffs_tags p
      constructor
      · intro i its' hmem
        have hmem' : Effect.refreshInvoked i its' ∈ advEffs p := by simpa using hmem
        exact (ht3 i its' hmem').elim
      · rw [hrest]
        intro i hi
        simp [visitList] at hi
  | succ k ih =>
    intro s p hk hex hnr hgood hval
    obtain ⟨comp, r, hc, hr⟩ := hval
    obtain ⟨hok, its, hits⟩ := goodComp_ref comp r (hgood comp (List.get?_mem hc)) hr
    have hskel1 : skel (s.components.set p.susp.idx
        { comp with ref := some { r with observers := r.observers.erase p.susp.obs } }) =
        skel s.components :=
      skel_set s.components p.susp.idx comp _ hc rfl (by simp [hr])
    have hgood1 : GoodComps (s.components.set p.susp.idx
        { comp with ref := some { r with observers := r.observers.erase p.susp.obs } }) := by
      refine GoodComps_set _ _ _ hgood ?_
      unfold goodComp
      simp [hok, hits]
    rcases hl : loopFrom p.ctx (s.components.set p.susp.idx
        { comp with ref := some { r with observers := r.observers.erase p.susp.obs } })
        p.susp.rest with ⟨comps2, effs1, out⟩
    cases out with
    | suspended si =>
      obtain ⟨hv, hlen, hskel2, hgood2, hval2, hseq1, hstart1, hforce1⟩ :=
        loopFrom_suspended_spec _ _ _ _ _ _ hgood1 hl
      rw [hskel1] at hv
      have hstep := drain_suspended_step s p comp r comps2 effs1 si hex hc hr hok hl
      obtain ⟨m, s', tr, hrun, hex', hisr', hnr', hskel', hgood', hseq', hstart', hforce'⟩ :=
        ih { s with components := comps2,
                    executing := [{ p with progress := advProgress p, susp := si }] }
          { p with progress := advProgress p, susp := si }
          (by simpa using Nat.le_of_lt_succ (lt_of_lt_of_le hlen hk))
          rfl hnr hgood2 hval2
      refine ⟨m + 1, s', (advEffs p ++ effs1) ++ tr, ?_, hex', hisr', hnr', ?_, hgood',
        ?_, ?_, ?_⟩
      · rw [List.replicate_succ, runEvents_cons,
          show stepEvent s Event.advance = stepAdvance s from rfl, hstep]
        simp only at hrun ⊢
        rw [hrun]
      · rw [hskel', hskel2, hskel1]
      · obtain ⟨ht1, -, -, -⟩ := advEffs_tags p
        simp only [List.filterMap_append, ht1, hseq1, hseq']
        rw [hv, pairTags_cons]
        have : skel comps2 = skel s.components := hskel2.trans hskel1
        rw [this]
        rfl
      · obtain ⟨-, ht2, -, -⟩ := advEffs_tags p
        simp [List.filterMap_append, ht2, hstart1, hstart']
      · intro hfrc
        obtain ⟨-, -, ht3, ht4⟩ := advEffs_tags p
        obtain ⟨hf1, hf2⟩ := hforce1 hfrc
        obtain ⟨hf1', hf2'⟩ := hforce' hfrc
        have hvisit2 : visitList p.ctx.filter (skel comps2) si.rest =
            visitList p.ctx.filter (skel s.components) si.rest := by
          rw [hskel2.trans hskel1]
        constructor
        · intro i its' hmem
          rcases List.mem_append.mp hmem with hmem | hmem
          · rcases List.mem_append.mp hmem with hmem | hmem
            · exact (ht3 i its' hmem).elim
            · exact hf1 i its' hmem
          · exact hf1' i its' hmem
        · intro i hi
          rw [hv] at hi
          rcases List.mem_cons.mp hi with rfl | hi
          · exact List.mem_append.mpr (Or.inl (List.mem_append.mpr (Or.inr hf2)))
          · refine List.mem_append.mpr (Or.inr ?_)
            refine hf2' i ?_
            rw [hvisit2]
            exact hi
    | finished =>
      obtain ⟨hc2, heff, hv⟩ := loopFrom_finished_spec _ _ _ _ _ hl
      subst hc2
      subst heff
      rw [hskel1] at hv
      have hstep := drain_finished_step s p comp r _ hex hc hr hok hnr hl
      refine ⟨1,
        { s with
            components := s.components.set p.susp.idx
              { comp with ref := some { r with observers := r.observers.erase p.susp.obs } },
            isRefreshing := false,
            executing := [] },
        (advEffs p ++ (if p.ctx.obj then [] else [Effect.taskClosed])) ++ [],
        ?_, rfl, rfl, hnr, hskel1, hgood1, ?_, ?_, ?_⟩
      · rw [show List.replicate 1 Event.advance = [Event.advance] from rfl, runEvents_cons]
        rw [show stepEvent s Event.advance = stepAdvance s from rfl, hstep]
        rfl
      · obtain ⟨ht1, -, -, -⟩ := advEffs_tags p
        rw [hv]
        cases ho : p.ctx.obj <;>
          simp [List.filterMap_append, ht1, seqTag, pairTags]
      · obtain ⟨-, ht2, -, -⟩ := advEffs_tags p
        cases ho : p.ctx.obj <;> simp [List.filterMap_append, ht2, startTag]
      · intro hfrc
        obtain ⟨-, -, ht3, ht4⟩ := advEffs_tags p
        constructor
        · intro i its' hmem
          have hmem' : Effect.refreshInvoked i its' ∈ advEffs p := by simpa using hmem
          exact (ht3 i its' hmem').elim
        · intro i hi
          rw [hv] at hi
          simp at hi
    | threw =>
      exact (loopFrom_no_threw _ _ _ _ _ hgood1 hl).elim

/-- Helper: once a pass's epilogue runs with the pending-rerun flag set,
exactly one full, unfiltered, unforced rerun is started (and drained), and
the machine settles into idle. -/
theorem rerun_after_finish (s : MachineState) (p : Pass) (comps2 : List AssetComponent)
    (hgood2 : GoodComps comps2)
    (hstep : stepAdvance s =
      ((refreshAllAssets ⟨comps2, false, false, []⟩ none false false).1,
       advEffs p ++ (if p.ctx.obj then [] else [Effect.taskClosed]) ++
         (refreshAllAssets ⟨comps2, false, false, []⟩ none false false).2)) :
    ∃ m s' tr, runEvents s (List.replicate m Event.advance) = (s', tr) ∧
      s'.executing = [] ∧ s'.isRefreshing = false ∧ s'.needsRefresh = false ∧
      tr.filterMap startTag = [(none, false, false)] := by
  obtain ⟨s1, tr1, hcall, hskel1, hgood1', hnr1, hstart1, hdisj⟩ :=
    refreshAllAssets_idle ⟨comps2, false, false, []⟩ none false false rfl rfl rfl hgood2
  rcases hdisj with ⟨hexe1, hisr1, -, -⟩ | ⟨p1, hexe1, hisr1, -, hval1, -, -, -⟩
  · refine ⟨1, s1,
      (advEffs p ++ (if p.ctx.obj then [] else [Effect.taskClosed]) ++ tr1) ++ [],
      ?_, hexe1, hisr1, hnr1, ?_⟩
    · rw [show List.replicate 1 Event.advance = [Event.advance] from rfl, runEvents_cons,
        show stepEvent s Event.advance = stepAdvance s from rfl, hstep, hcall]
      rfl
    · obtain ⟨-, ht2, -, -⟩ := advEffs_tags p
      cases ho : p.ctx.obj <;> simp [List.filterMap_append, ht2, hstart1, startTag]
  · obtain ⟨m2, s2, tr2, hrun2, hexe2, hisr2, hnr2, -, -, -, hstart2, -⟩ :=
      drain_no_pending p1.susp.rest.length s1 p1 le_rfl hexe1 hnr1 hgood1' hval1
    refine ⟨m2 + 1, s2,
      (advEffs p ++ (if p.ctx.obj then [] else [Effect.taskClosed]) ++ tr1) ++ tr2,
      ?_, hexe2, hisr2, hnr2, ?_⟩
    · rw [List.replicate_succ, runEvents_cons,
        show stepEvent s Event.advance = stepAdvance s from rfl, hstep, hcall]
      simp only at hrun2 ⊢
      rw [hrun2]
    · obtain ⟨-, ht2, -, -⟩ := advEffs_tags p
      cases ho : p.ctx.obj <;> simp [List.filterMap_append, ht2, hstart1, hstart2, startTag]

/-- Helper: draining a suspended pass with the pending-rerun flag set: the
pass completes, then exactly one additional full, unfiltered, unforced pass
runs and completes, and the machine settles into idle. -/
theorem drain_pending (k : ℕ) :
    ∀ (s : MachineState) (p : Pass),
      p.susp.rest.length ≤ k →
      s.executing = [p] →
      s.needsRefresh = true →
      GoodComps s.components →
      ValidSusp s.components p.susp →
      ∃ m s' tr, runEvents s (List.replicate m Event.advance) = (s', tr) ∧
        s'.executing = [] ∧ s'.isRefreshing = false ∧ s'.needsRefresh = false ∧
        tr.filterMap startTag = [(none, false, false)] := by
  induction k with
  | zero =>
    intro s p hk hex hnr hgood hval
    obtain ⟨comp, r, hc, hr⟩ := hval
    obtain ⟨hok, its, hits⟩ := goodComp_ref comp r (hgood comp (List.get?_mem hc)) hr
    have hrest : p.susp.rest = [] := List.length_eq_zero.mp (Nat.le_zero.mp hk)
    have hgood1 : GoodComps (s.components.set p.susp.idx
        { comp with ref := some { r with observers := r.observers.erase p.susp.obs } }) := by
      refine GoodComps_set _ _ _ hgood ?_
      unfold goodComp
      simp [hok, hits]
    have hl : loopFrom p.ctx (s.components.set p.susp.idx
        { comp with ref := some { r with observers := r.observers.erase p.susp.obs } })
        p.susp.rest =
        (s.components.set p.susp.idx
          { comp with ref := some { r with observers := r.observers.erase p.susp.obs } },
         [], .finished) := by
      rw [hrest]; rfl
    have hstep : stepAdvance s =
        ((refreshAllAssets ⟨s.components.set p.susp.idx
            { comp with ref := some { r with observers := r.observers.erase p.susp.obs } },
            false, false, []⟩ none false false).1,
         advEffs p ++ (if p.ctx.obj then [] else [Effect.taskClosed]) ++
           (refreshAllAssets ⟨s.components.set p.susp.idx
             { comp with ref := some { r with observers := r.observers.erase p.susp.obs } },
             false, false, []⟩ none false false).2) := by
      rw [stepAdvance_ok s p [] comp r hex hc hr hok, hl]
      simp [hnr]
    exact rerun_after_finish s p _ hgood1 hstep
  | succ k ih =>
    intro s p hk hex hnr hgood hval
    obtain ⟨comp, r, hc, hr⟩ := hval
    obtain ⟨hok, its, hits⟩ := goodComp_ref comp r (hgood comp (List.get?_mem hc)) hr
    have hgood1 : GoodComps (s.components.set p.susp.idx
        { comp with ref := some { r with observers := r.observers.erase p.susp.obs } }) := by
      refine GoodComps_set _ _ _ hgood ?_
      unfold goodComp
      simp [hok, hits]
    rcases hl : loopFrom p.ctx (s.components.set p.susp.idx
        { comp with ref := some { r with observers := r.observers.erase p.susp.obs } })
        p.susp.rest with ⟨comps2, effs1, out⟩
    cases out with
    | suspended si =>
      obtain ⟨-, hlen, -, hgood2, hval2, -, -, -⟩ :=
        loopFrom_suspended_spec _ _ _ _ _ _ hgood1 hl
      have hstep := drain_suspended_step s p comp r comps2 effs1 si hex hc hr hok hl
      obtain ⟨m, s', tr, hrun, hex', hisr', hnr', hstart'⟩ :=
        ih { s with components := comps2,
                    executing := [{ p with progress := advProgress p, susp := si }] }
          { p with progress := advProgress p, susp := si }
          (by simpa using Nat.le_of_lt_succ (lt_of_lt_of_le hlen hk))
          rfl hnr hgood2 hval2
      refine ⟨m + 1, s', (advEffs p ++ effs1) ++ tr, ?_, hex', hisr', hnr', ?_⟩
      · rw [List.replicate_succ, runEvents_cons,
          show stepEvent s Event.advance = stepAdvance s from rfl, hstep]
        simp only at hrun ⊢
        rw [hrun]
      · obtain ⟨-, ht2, -, -⟩ := advEffs_tags p
        obtain ⟨-, -, -, -, -, -, hstart1, -⟩ :=
          loopFrom_suspended_spec _ _ _ _ _ _ hgood1 hl
        simp [List.filterMap_append, ht2, hstart1, hstart']
    | finished =>
      obtain ⟨hc2, heff, -⟩ := loopFrom_finished_spec _ _ _ _ _ hl
      subst hc2
      subst heff
      have hstep : stepAdvance s =
          ((refreshAllAssets ⟨s.components.set p.susp.idx
              { comp with ref := some { r with observers := r.observers.erase p.susp.obs } },
              false, false, []⟩ none false false).1,
           advEffs p ++ (if p.ctx.obj then [] else [Effect.taskClosed]) ++
             (refreshAllAssets ⟨s.components.set p.susp.idx
               { comp with ref := some { r with observers := r.observers.erase p.susp.obs } },
               false, false, []⟩ none false false).2) := by
        rw [stepAdvance_ok s p [] comp r hex hc hr hok, hl]
        simp [hnr]
      exact rerun_after_finish s p _ hgood1 hstep
    | threw =>
      exact (loopFrom_no_threw _ _ _ _ _ hgood1 hl).elim

/-- Helper: the synchronous part of a refresh call keeps the
one-pass-at-most discipline: a cleared guard means nothing executing, never
more than one pass, and a synchronously completed call ends with the guard
cleared and nothing executing. -/
theorem refreshAllBase_inv (s : MachineState) (f : Option ℕ) (o frc : Bool)
    (hex : s.executing = []) :
    ((refreshAllBase s f o frc).1.isRefreshing = false →
      (refreshAllBase s f o frc).1.executing = []) ∧
    (refreshAllBase s f o frc).1.executing.length ≤ 1 ∧
    ((refreshAllBase s f o frc).2.2 = .completed →
      (refreshAllBase s f o frc).1.isRefreshing = false ∧
      (refreshAllBase s f o frc).1.executing = [] ∧
      (refreshAllBase s f o frc).1.needsRefresh = s.needsRefresh) := by
  cases hbv : s.isRefreshing with
  | true => simp [refreshAllBase, hbv, hex]
  | false =>
    rcases hl : loopFrom ⟨f, o, frc, jsDiv (.fin 100 1) (.fin s.components.length 1)⟩
        s.components (List.range s.components.length) with ⟨comps2, effs, out⟩
    cases out <;> simp [refreshAllBase, hbv, hl, hex]

/-- Helper: a full refresh call preserves the one-pass-at-most state
discipline. -/
theorem refreshAllAssets_inv (s : MachineState) (f : Option ℕ) (o frc : Bool)
    (h : StateInv s) : StateInv (refreshAllAssets s f o frc).1 := by
  obtain ⟨h1, h2⟩ := h
  cases hbv : s.isRefreshing with
  | true =>
    have hcall : refreshAllAssets s f o frc = ({ s with needsRefresh := true },
        [Effect.returnedBusy]) := by
      simp [refreshAllAssets, refreshAllBase, hbv]
    rw [hcall]
    exact ⟨fun hh => h1 hh, h2⟩
  | false =>
    have hex : s.executing = [] := h1 hbv
    rcases hB : refreshAllBase s f o frc with ⟨s1, e1, tag⟩
    have hinv1 := refreshAllBase_inv s f o frc hex
    rw [hB] at hinv1
    obtain ⟨hi1, hi2, hi3⟩ := hinv1
    cases tag with
    | busy =>
      have hcall : refreshAllAssets s f o frc = (s1, e1) := by
        unfold refreshAllAssets; rw [hB]
      rw [hcall]; exact ⟨hi1, hi2⟩
    | inFlight =>
      have hcall : refreshAllAssets s f o frc = (s1, e1) := by
        unfold refreshAllAssets; rw [hB]
      rw [hcall]; exact ⟨hi1, hi2⟩
    | threwOut =>
      have hcall : refreshAllAssets s f o frc = (s1, e1) := by
        unfold refreshAllAssets; rw [hB]
      rw [hcall]; exact ⟨hi1, hi2⟩
    | completed =>
      obtain ⟨hfin, hfex, -⟩ := hi3 rfl
      cases hnrv : s1.needsRefresh with
      | true =>
        rcases hB2 : refreshAllBase { s1 with needsRefresh := false } none false false
          with ⟨s2, e2, tag2⟩
        have hinv2 := refreshAllBase_inv { s1 with needsRefresh := false } none false false
          (by simpa using hfex)
        rw [hB2] at hinv2
        have hcall : refreshAllAssets s f o frc = (s2, e1 ++ e2) := by
          unfold refreshAllAssets
          rw [hB]
          simp [hnrv, hB2]
        rw [hcall]
        exact ⟨hinv2.1, hinv2.2.1⟩
      | false =>
        have hcall : refreshAllAssets s f o frc = (s1, e1) := by
          unfold refreshAllAssets
          rw [hB]
          simp [hnrv]
        rw [hcall]
        exact ⟨hi1, hi2⟩

/-- Helper: a resume event preserves the one-pass-at-most discipline. -/
theorem stepAdvance_inv (s : MachineState) (h : StateInv s) :
    StateInv (stepAdvance s).1 := by
  obtain ⟨h1, h2⟩ := h
  cases hexv : s.executing with
  | nil => rw [stepAdvance_nil s hexv]; exact ⟨h1, h2⟩
  | cons p restP =>
    have hrest : restP = [] := by
      rw [hexv] at h2
      simpa using h2
    subst hrest
    have href : s.isRefreshing = true := by
      cases hbv : s.isRefreshing with
      | false => exact absurd (h1 hbv) (by simp [hexv])
      | true => rfl
    cases hc : s.components.get? p.susp.idx with
    | none =>
      have hstep : stepAdvance s = ({ s with executing := [] }, []) := by
        unfold stepAdvance
        rw [hexv]
        simp only [hc]
      rw [hstep]
      exact ⟨fun _ => rfl, by simp⟩
    | some comp =>
      cases hr : comp.ref with
      | none =>
        have hstep : stepAdvance s = ({ s with executing := [] }, []) := by
          unfold stepAdvance
          rw [hexv]
          simp only [hc, hr]
        rw [hstep]
        exact ⟨fun _ => rfl, by simp⟩
      | some r =>
        cases hok : r.refreshOk with
        | false =>
          rw [stepAdvance_reject s p [] comp r hexv hc hr hok]
          exact ⟨fun _ => rfl, by simp⟩
        | true =>
          rw [stepAdvance_ok s p [] comp r hexv hc hr hok]
          rcases hl : loopFrom p.ctx (s.components.set p.susp.idx
              { comp with ref := some { r with observers := r.observers.erase p.susp.obs } })
              p.susp.rest with ⟨comps2, effs1, out⟩
          cases out with
          | suspended si =>
            refine ⟨fun hh => ?_, by simp⟩
            simp [href] at hh
          | finished =>
            cases hnrv : s.needsRefresh with
            | true =>
              simp only [hnrv, if_true]
              exact refreshAllAssets_inv _ none false false ⟨fun _ => rfl, by simp⟩
            | false =>
              simp only [hnrv, Bool.false_eq_true, if_false]
              exact ⟨fun _ => rfl, by simp⟩
          | threw =>
            refine ⟨fun hh => ?_, by simp⟩
            simp [href] at hh

/-- Helper: every event preserves the one-pass-at-most discipline. -/
theorem stepEvent_inv (s : MachineState) (e : Event) (h : StateInv s) :
    StateInv (stepEvent s e).1 := by
  cases e with
  | call f o frc => exact refreshAllAssets_inv s f o frc h
  | advance => exact stepAdvance_inv s h
  | ingest =>
    show StateInv (addFilesToAssets s).1
    cases hbv : s.isRefreshing with
    | true =>
      have hcall : addFilesToAssets s = (s, [Effect.alertShown]) := by
        simp [addFilesToAssets, hbv]
      rw [hcall]; exact h
    | false =>
      have hcall : (addFilesToAssets s).1 = (refreshAllAssets s none false false).1 := by
        simp [addFilesToAssets, hbv]
      rw [hcall]
      exact refreshAllAssets_inv s none false false h

/-- Helper: whole runs preserve the one-pass-at-most discipline. -/
theorem runEvents_inv (s : MachineState) (evs : List Event) (h : StateInv s) :
    StateInv (runEvents s evs).1 := by
  induction evs generalizing s with
  | nil => exact h
  | cons e rest ih =>
    rw [runEvents_cons]
    exact ih (stepEvent s e).1 (stepEvent_inv s e h)

/-- Helper: with no constructor filter, the visit order of a pass is
exactly the candidate indices holding a live descriptor, in order. -/
theorem visitList_none (sk : List (ℕ × Bool)) (l : List ℕ) :
    visitList none sk l =
      l.filter (fun i => (((sk.get? i).map Prod.snd).getD false)) := by
  induction l with
  | nil => rfl
  | cons idx rest ih =>
    unfold visitList
    cases hg : sk.get? idx with
    | none =>
      have hg' : sk[idx]? = none := by rw [← List.get?_eq_getElem?]; exact hg
      simp [hg, hg', ih, List.filter_cons]
    | some cb =>
      have hg' : sk[idx]? = some cb := by rw [← List.get?_eq_getElem?]; exact hg
      cases hb : cb.2 with
      | true => simp [hg, hg', filterSkipsAt, hb, ih, List.filter_cons]
      | false => simp [hg, hg', filterSkipsAt, hb, ih, List.filter_cons]

/-!
Claim C5 — visiting order of an unfiltered refresh pass.
-/

/-- Claim C5 counterexample: over `sDead`, whose single registered
descriptor has no live instance (`_ref` undefined, line 315), an
unfiltered refresh pass invokes no handler refresh at all even though one
handler is registered — registered handlers are not visited "in full";
dead descriptors are skipped. -/
theorem refresh_skips_dead_handler_cex :
    sDead.components.length = 1 ∧
    (refreshAllAssets sDead none false false).2.filterMap invokedIdx = [] ∧
    (refreshAllAssets sDead none false false).1.isRefreshing = false := by
  refine ⟨rfl, by decide, by decide⟩

/-- Claim C5 (amended): from an idle state whose live handlers all have
defined item lists and resolving refreshes, an unfiltered refresh call
followed by enough resume events refreshes exactly the handlers with a
live instance, in stable registration order, strictly sequentially: the
refresh-call boundary trace is `begin i, end i` for each live index `i` in
order, each handler's refresh completing before the next one begins. -/
theorem refresh_visits_live_in_order (s : MachineState)
    (hb : s.isRefreshing = false) (hnr : s.needsRefresh = false)
    (hex : s.executing = []) (hgood : GoodComps s.components) :
    ∃ m s' tr,
      runEvents s (Event.call none false false :: List.replicate m Event.advance) =
        (s', tr) ∧
      s'.executing = [] ∧ s'.isRefreshing = false ∧
      tr.filterMap seqTag =
        pairTags ((List.range s.components.length).filter
          (fun i => ((((skel s.components).get? i).map Prod.snd).getD false))) := by
  obtain ⟨s1, tr1, hcall, hskel1, hgood1, hnr1, hstart1, hdisj⟩ :=
    refreshAllAssets_idle s none false false hb hnr hex hgood
  rcases hdisj with ⟨hexe1, hisr1, hvl, hseq1⟩ |
    ⟨p1, hexe1, hisr1, hctx, hval1, hvl, hseq1, -⟩
  · rw [visitList_none] at hvl
    refine ⟨0, s1, tr1 ++ [], ?_, hexe1, hisr1, ?_⟩
    · rw [runEvents_cons,
        show stepEvent s (Event.call none false false) =
          refreshAllAssets s none false false from rfl, hcall]
      rfl
    · rw [hvl]
      simp [List.filterMap_append, hseq1, pairTags]
  · obtain ⟨m2, s2, tr2, hrun2, hexe2, hisr2, -, -, -, hseq2, -, -⟩ :=
      drain_no_pending p1.susp.rest.length s1 p1 le_rfl hexe1 hnr1 hgood1 hval1
    have hfil : p1.ctx.filter = none := by rw [hctx]
    rw [hfil, hskel1] at hseq2
    refine ⟨m2, s2, tr1 ++ tr2, ?_, hexe2, hisr2, ?_⟩
    · rw [runEvents_cons,
        show stepEvent s (Event.call none false false) =
          refreshAllAssets s none false false from rfl, hcall]
      simp only at hrun2 ⊢
      rw [hrun2]
    · rw [List.filterMap_append, hseq1, hseq2, ← visitList_none, hvl, pairTags_cons]
      rfl

/-- Witness for C5's amended theorem at the idle two-live-handler state
`sGood`: both handlers are refreshed, in order, strictly sequentially. -/
theorem refresh_visits_live_in_order_witness :
    sGood.isRefreshing = false ∧ sGood.needsRefresh = false ∧
    sGood.executing = [] ∧ GoodComps sGood.components ∧
    (∃ m s' tr,
      runEvents sGood (Event.call none false false :: List.replicate m Event.advance) =
        (s', tr) ∧
      s'.executing = [] ∧ s'.isRefreshing = false ∧
      tr.filterMap seqTag =
        pairTags ((List.range sGood.components.length).filter
          (fun i => ((((skel sGood.components).get? i).map Prod.snd).getD false)))) :=
  ⟨rfl, rfl, rfl, by unfold GoodComps; decide,
   refresh_visits_live_in_order sGood rfl rfl rfl (by unfold GoodComps; decide)⟩

/-!
Claim C6 — force clears item lists; forceRefresh as sugar.
-/

/-- Claim C6: `forceRefresh(targetCtor)` is exactly
`_refreshAllAssets(targetCtor, undefined, true)`; and in a force pass from
an idle state, every visited handler (filter match with a live instance)
has its item list cleared — the clear is recorded in the trace and every
handler refresh of the run is invoked on the already-emptied list. -/
theorem force_clears_before_refresh (s : MachineState) (f : Option ℕ)
    (hb : s.isRefreshing = false) (hnr : s.needsRefresh = false)
    (hex : s.executing = []) (hgood : GoodComps s.components) :
    forceRefresh s f = refreshAllAssets s f false true ∧
    ∃ m s' tr,
      runEvents s (Event.call f false true :: List.replicate m Event.advance) =
        (s', tr) ∧
      s'.executing = [] ∧ s'.isRefreshing = false ∧
      (∀ i its, Effect.refreshInvoked i its ∈ tr → its = []) ∧
      (∀ i ∈ visitList f (skel s.components) (List.range s.components.length),
        Effect.itemsCleared i ∈ tr) := by
  refine ⟨rfl, ?_⟩
  obtain ⟨s1, tr1, hcall, hskel1, hgood1, hnr1, hstart1, hdisj⟩ :=
    refreshAllAssets_idle s f false true hb hnr hex hgood
  rcases hdisj with ⟨hexe1, hisr1, hvl, hseq1⟩ |
    ⟨p1, hexe1, hisr1, hctx, hval1, hvl, hseq1, hforce1⟩
  · refine ⟨0, s1, tr1 ++ [], ?_, hexe1, hisr1, ?_, ?_⟩
    · rw [runEvents_cons,
        show stepEvent s (Event.call f false true) =
          refreshAllAssets s f false true from rfl, hcall]
      rfl
    · intro i its hmem
      have hmem1 : Effect.refreshInvoked i its ∈ tr1 := by simpa using hmem
      have htag : (true, i) ∈ tr1.filterMap seqTag :=
        List.mem_filterMap.mpr ⟨Effect.refreshInvoked i its, hmem1, rfl⟩
      rw [hseq1] at htag
      exact absurd htag (by simp)
    · intro i hi
      rw [hvl] at hi
      exact absurd hi (by simp)
  · obtain ⟨hf1, hf2⟩ := hforce1 rfl
    obtain ⟨m2, s2, tr2, hrun2, hexe2, hisr2, -, -, -, -, -, hforce2⟩ :=
      drain_no_pending p1.susp.rest.length s1 p1 le_rfl hexe1 hnr1 hgood1 hval1
    have hfrc2 : p1.ctx.force = true := by rw [hctx]
    obtain ⟨hg1, hg2⟩ := hforce2 hfrc2
    have hfil : p1.ctx.filter = f := by rw [hctx]
    rw [hfil, hskel1] at hg2
    refine ⟨m2, s2, tr1 ++ tr2, ?_, hexe2, hisr2, ?_, ?_⟩
    · rw [runEvents_cons,
        show stepEvent s (Event.call f false true) =
          refreshAllAssets s f false true from rfl, hcall]
      simp only at hrun2 ⊢
      rw [hrun2]
    · intro i its hmem
      rcases List.mem_append.mp hmem with hmem | hmem
      · exact hf1 i its hmem
      · exact hg1 i its hmem
    · intro i hi
      rw [hvl] at hi
      rcases List.mem_cons.mp hi with hi | hi
      · subst hi
        exact List.mem_append.mpr (Or.inl hf2)
      · exact List.mem_append.mpr (Or.inr (hg2 i hi))

/-- Witness for C6 at the idle two-live-handler state `sGood` with no
filter: both handlers' item lists are cleared and both refreshes are
invoked on the emptied lists. -/
theorem force_clears_before_refresh_witness :
    sGood.isRefreshing = false ∧ sGood.needsRefresh = false ∧
    sGood.executing = [] ∧ GoodComps sGood.components ∧
    (forceRefresh sGood none = refreshAllAssets sGood none false true ∧
     ∃ m s' tr,
      runEvents sGood (Event.call none false true :: List.replicate m Event.advance) =
        (s', tr) ∧
      s'.executing = [] ∧ s'.isRefreshing = false ∧
      (∀ i its, Effect.refreshInvoked i its ∈ tr → its = []) ∧
      (∀ i ∈ visitList none (skel sGood.components)
          (List.range sGood.components.length),
        Effect.itemsCleared i ∈ tr)) :=
  ⟨rfl, rfl, rfl, by unfold GoodComps; decide,
   force_clears_before_refresh sGood none rfl rfl rfl (by unfold GoodComps; decide)⟩

/-!
Claim C1 — coalescing: at most one executing pass, busy calls only flag a
rerun, exactly one follow-up pass.
-/

/-- Helper: a refresh call arriving while the guard is set only flags the
pending rerun and returns the busy notice (source lines 302-305). -/
theorem busy_call_eq (s : MachineState) (f : Option ℕ) (o frc : Bool)
    (hb : s.isRefreshing = true) :
    refreshAllAssets s f o frc =
      ({ s with needsRefresh := true }, [Effect.returnedBusy]) := by
  simp [refreshAllAssets, refreshAllBase, hb]

/-- Helper: any number of refresh calls arriving while the guard is set
leaves exactly one flagged rerun: the state after `k + 1` busy calls is the
same as after one. -/
theorem busy_calls_coalesce (s : MachineState) (f : Option ℕ) (o frc : Bool)
    (hb : s.isRefreshing = true) : ∀ k,
    runEvents s (List.replicate (k + 1) (Event.call f o frc)) =
      ({ s with needsRefresh := true },
       List.replicate (k + 1) Effect.returnedBusy) := by
  intro k
  induction k generalizing s with
  | zero =>
    rw [show List.replicate 1 (Event.call f o frc) = [Event.call f o frc] from rfl,
      runEvents_cons,
      show stepEvent s (Event.call f o frc) = refreshAllAssets s f o frc from rfl,
      busy_call_eq s f o frc hb]
    rfl
  | succ k ih =>
    rw [List.replicate_succ, runEvents_cons,
      show stepEvent s (Event.call f o frc) = refreshAllAssets s f o frc from rfl,
      busy_call_eq s f o frc hb]
    have ih' := ih { s with needsRefresh := true } hb
    simp only at ih' ⊢
    rw [ih']
    simp [List.replicate_succ]

/-- The suspended pass of the run started on `sGood` by an unfiltered,
unforced refresh call: handler 0 is awaited, handler 1 remains. -/
def pMid : Pass :=
  ⟨⟨none, false, false, .fin 100 2⟩, .fin 0 1, ⟨0, 0, .inf, [1]⟩⟩

/-- Mid-pass machine over the `sGood` registry: handler 0's refresh is
awaited, and a further call has already flagged the pending rerun. -/
def sMid : MachineState :=
  ⟨[⟨"A", "a", 0, 0, some ⟨some [], [0], 1, true, true⟩⟩,
    ⟨"B", "b", 1, 1, some refGood⟩],
   true, true, [pMid]⟩

/-- Claim C1: (i) every event sequence preserves the one-pass-at-most
discipline — a cleared guard means nothing is executing and never more
than one pass executes; (ii) a call arriving while the guard is set only
flags the pending rerun and returns the busy notice, and any `k + 1` such
calls coalesce into the single flag; (iii) from a mid-pass state with the
rerun flag set, draining the pass starts exactly one additional full,
unfiltered, unforced pass and settles the machine into idle. -/
theorem refresh_coalescing (s : MachineState) (evs : List Event)
    (f : Option ℕ) (o frc : Bool) (p : Pass) (k : ℕ)
    (hinv : StateInv s) :
    StateInv (runEvents s evs).1 ∧
    (s.isRefreshing = true →
      refreshAllAssets s f o frc =
        ({ s with needsRefresh := true }, [Effect.returnedBusy]) ∧
      runEvents s (List.replicate (k + 1) (Event.call f o frc)) =
        ({ s with needsRefresh := true },
         List.replicate (k + 1) Effect.returnedBusy)) ∧
    (s.executing = [p] → s.needsRefresh = true → GoodComps s.components →
      ValidSusp s.components p.susp →
      ∃ m s' tr, runEvents s (List.replicate m Event.advance) = (s', tr) ∧
        s'.executing = [] ∧ s'.isRefreshing = false ∧ s'.needsRefresh = false ∧
        tr.filterMap startTag = [(none, false, false)]) :=
  ⟨runEvents_inv s evs hinv,
   fun hb => ⟨busy_call_eq s f o frc hb, busy_calls_coalesce s f o frc hb k⟩,
   fun hexe hnr hgood hval =>
     drain_pending p.susp.rest.length s p le_rfl hexe hnr hgood hval⟩

/-- Witness for C1 at the concrete mid-pass state `sMid` whose rerun flag
is set: all three conjuncts hold there, with three coalesced busy calls
and the drain starting exactly one unfiltered, unforced follow-up pass. -/
theorem refresh_coalescing_witness :
    StateInv sMid ∧
    (StateInv (runEvents sMid [Event.advance]).1 ∧
     (sMid.isRefreshing = true →
       refreshAllAssets sMid none false true =
         ({ sMid with needsRefresh := true }, [Effect.returnedBusy]) ∧
       runEvents sMid (List.replicate 3 (Event.call none false true)) =
         ({ sMid with needsRefresh := true },
          List.replicate 3 Effect.returnedBusy)) ∧
     (sMid.executing = [pMid] → sMid.needsRefresh = true →
       GoodComps sMid.components → ValidSusp sMid.components pMid.susp →
       ∃ m s' tr, runEvents sMid (List.replicate m Event.advance) = (s', tr) ∧
         s'.executing = [] ∧ s'.isRefreshing = false ∧ s'.needsRefresh = false ∧
         tr.filterMap startTag = [(none, false, false)])) :=
  ⟨by unfold StateInv; decide,
   refresh_coalescing sMid [Event.advance] none false true pMid 2
     (by unfold StateInv; decide)⟩

end Assets
